import Mathlib

/-!
# Verification of the collada-rs asset conversion core

A shallow embedding of the `parse`/`encode` conversion layer of the
repository (src/core/{asset,contributor,extra,location,technique}.rs,
src/error.rs, src/traits.rs) together with theorems settling the frozen
claims about it.

Modelling conventions:
* `xmltree::Element` becomes the inductive `Collada.Element`; the
  `HashMap<String, String>` attribute map becomes an association list
  queried through `getAttr` (all encoders insert pairwise-distinct keys,
  so the association list is an exact model of the map).
* Rust's `f32` is kept abstract: every definition is parametric in a type
  `F` together with the four operations the source applies to floats
  (`str::parse::<f32>`, `Display`, `as i32`, plus the literals `0.0` and
  `1.0`), collected in `FOps`.  The two facts the round-trip proofs need
  about the real `f32` operations (`Display` output re-parses to the same
  value; the decimal rendering of an `i32` parses to the float denoting
  that integer) are stated in `FOps.Lawful` and assumed as hypotheses.
* A Rust function that can `panic!` (an `unwrap` of a failed numeric
  parse, or an out-of-bounds index) is modelled by the distinguished
  result `PRes.crash`, kept apart from `PRes.err` which models
  `Err(ColladaError)`.
* `parse(&mut self, e)` mutating `self` and returning `Result<(), _>`
  becomes a pure function from the starting record and the element to
  `PRes record`.
-/

namespace Collada

/-- The generic XML tree node of the `xmltree` collaborator crate:
tag name, string attribute map, ordered children, optional text. -/
inductive Element : Type where
  | mk (name : String) (attributes : List (String × String))
      (children : List Element) (text : Option String)

/-- Tag name of an element. -/
def Element.name : Element → String
  | .mk n _ _ _ => n

/-- Attribute map of an element (association list model of the `HashMap`). -/
def Element.attributes : Element → List (String × String)
  | .mk _ a _ _ => a

/-- Ordered child list of an element. -/
def Element.children : Element → List Element
  | .mk _ _ c _ => c

/-- Optional text content of an element. -/
def Element.text : Element → Option String
  | .mk _ _ _ t => t

@[simp] theorem Element.tagName_mk (n a c t) : (Element.mk n a c t).name = n := rfl
@[simp] theorem Element.attributes_mk (n a c t) : (Element.mk n a c t).attributes = a := rfl
@[simp] theorem Element.children_mk (n a c t) : (Element.mk n a c t).children = c := rfl
@[simp] theorem Element.text_mk (n a c t) : (Element.mk n a c t).text = t := rfl

/-- `e.attributes.get(k)`: first binding of key `k` in the attribute map. -/
def getAttr (e : Element) (k : String) : Option String :=
  (e.attributes.find? (fun p => p.1 == k)).map (fun p => p.2)

/-- `e.get_child(k)`: first child whose tag is `k` (xmltree `get_child`). -/
def getChild (e : Element) (k : String) : Option Element :=
  e.children.find? (fun c => c.name == k)

/-- The error taxonomy of src/error.rs (`ColladaError`). -/
inductive ColladaError : Type where
  | ParseError
  | Invalid (msg : String)
  | InvalidChild (child : String) (parent : String)
  | InvalidAttr (elem : String) (attr : String)
  | InvalidAttrData (elem : String) (attr : String) (data : String)
  | InvalidData (elem : String) (data : String)
  | MissingElement (struct : String) (elem : String)
  | MissingAttr (elem : String) (attr : String)
  | MissingData (elem : String)
  deriving DecidableEq

/-- Outcome of a call to a `parse` implementation.  `ok` and `err` model
`Ok`/`Err` of the Rust `Result`; `crash` models a `panic!` (the `unwrap`
calls on numeric parses and the out-of-bounds index in `Location::parse`),
which is a termination mode distinct from returning an error. -/
inductive PRes (α : Type) : Type where
  | ok (val : α)
  | err (e : ColladaError)
  | crash
  deriving DecidableEq

/-- The operations the source code applies to `f32` values, kept abstract:
`parseF` is `str::parse::<f32>()` (`none` = `Err(ParseFloatError)`),
`fmt` is the `Display` rendering, `trunc` is `as i32`, `ofInt` is the
`f32` denoted by an integer's decimal rendering, and `one`/`zero` are the
literals `1.0` / `0.0` used by the constructors. -/
structure FOps (F : Type) where
  parseF : String → Option F
  fmt : F → String
  trunc : F → Int
  ofInt : Int → F
  one : F
  zero : F

/-- The two facts about the real `f32` operations that the round-trip
theorems rely on: the `Display` rendering of a float re-parses to the same
float, and the decimal rendering of an `i32` parses to the float denoting
that integer. -/
def FOps.Lawful {F : Type} (ops : FOps F) : Prop :=
  (∀ x : F, ops.parseF (ops.fmt x) = some x) ∧
  (∀ x : F, ops.parseF (toString (ops.trunc x)) = some (ops.ofInt (ops.trunc x)))

/-! ## Keyword splitting and joining

`Asset::parse` splits `<keywords>` text with `str::split_whitespace`
(maximal runs of non-whitespace, empty tokens dropped); `Asset::encode`
rebuilds the text by pushing every keyword followed by a space and then
popping the final character. -/

/-- Accumulator-passing core of `split_whitespace` over the character list;
the current partially-read token is kept reversed in `acc`. -/
def splitWSAux : List Char → List Char → List String
  | [], acc => if acc.isEmpty then [] else [String.mk acc.reverse]
  | c :: cs, acc =>
    if c.isWhitespace then
      if acc.isEmpty then splitWSAux cs []
      else String.mk acc.reverse :: splitWSAux cs []
    else splitWSAux cs (c :: acc)

/-- `str::split_whitespace` collected into a list. -/
def splitWhitespace (s : String) : List String :=
  splitWSAux s.data []

/-- Character-level content of the `<keywords>` text built by
`Asset::encode`: every keyword followed by `' '`, then the final
character removed (`String::pop`; a no-op on the empty string). -/
def kwJoinChars (ks : List String) : List Char :=
  (ks.foldl (fun l k => l ++ k.data ++ [' ']) []).dropLast

/-- The `<keywords>` text built by `Asset::encode`. -/
def kwJoin (ks : List String) : String :=
  String.mk (kwJoinChars ks)

/-! ## Flat records: Contributor, Technique, Unit, UpAxis, AltitudeMode, Location -/

/-- `Contributor` (src/core/contributor.rs): seven optional free-text fields. -/
structure Contributor : Type where
  author : Option String
  author_email : Option String
  author_website : Option String
  authoring_tool : Option String
  comments : Option String
  copyright : Option String
  source_data : Option String
  deriving DecidableEq

/-- `Contributor::new()`. -/
def Contributor.new : Contributor :=
  ⟨none, none, none, none, none, none, none⟩

/-- Child loop of `Contributor::parse`: text is extracted first
(absent text is a `MissingData` failure), then the tag is dispatched. -/
def contributorChildren (b : Contributor) : List Element → PRes Contributor
  | [] => .ok b
  | c :: rest =>
    match c.text with
    | none => .err (.MissingData c.name)
    | some t =>
      if c.name = "author" then contributorChildren { b with author := some t } rest
      else if c.name = "author_email" then
        contributorChildren { b with author_email := some t } rest
      else if c.name = "author_website" then
        contributorChildren { b with author_website := some t } rest
      else if c.name = "authoring_tool" then
        contributorChildren { b with authoring_tool := some t } rest
      else if c.name = "comments" then
        contributorChildren { b with comments := some t } rest
      else if c.name = "copyright" then
        contributorChildren { b with copyright := some t } rest
      else if c.name = "source_data" then
        contributorChildren { b with source_data := some t } rest
      else .err (.InvalidChild c.name "contributor")

/-- `Contributor::parse` (src/core/contributor.rs, lines 34-65). -/
def contributorParse (b : Contributor) (e : Element) : PRes Contributor :=
  if e.name ≠ "contributor" then .err (.MissingElement "contributor" "contributor")
  else contributorChildren b e.children

/-- One encoded child of a contributor: emitted only when the field is set. -/
def optTextChild (tag : String) : Option String → List Element
  | some s => [.mk tag [] [] (some s)]
  | none => []

/-- `Contributor::encode` (src/core/contributor.rs, lines 67-139). -/
def contributorEncode (b : Contributor) : Element :=
  .mk "contributor" []
    (optTextChild "author" b.author ++ optTextChild "author_email" b.author_email ++
      optTextChild "author_website" b.author_website ++
      optTextChild "authoring_tool" b.authoring_tool ++
      optTextChild "comments" b.comments ++ optTextChild "copyright" b.copyright ++
      optTextChild "source_data" b.source_data)
    none

/-- `Technique` (src/core/technique.rs): required profile, unused xmlns,
and the entire original node retained verbatim as `data`. -/
structure Technique : Type where
  profile : String
  xmlns : Option String
  data : Element

/-- `Technique::new()`. -/
def Technique.new : Technique :=
  ⟨"", none, .mk "technique" [] [] none⟩

/-- `Technique::parse` (src/core/technique.rs, lines 35-54). -/
def techniqueParse (t : Technique) (e : Element) : PRes Technique :=
  if e.name ≠ "technique" then .err (.MissingElement "technique" "technique")
  else
    match getAttr e "profile" with
    | some p => .ok { t with profile := p, data := e }
    | none => .err (.MissingAttr "technique" "profile")

/-- `Technique::encode`: the retained node is returned as-is. -/
def techniqueEncode (t : Technique) : Element :=
  t.data

/-- `Unit` (src/core/asset.rs): optional unit name and meters-per-unit. -/
structure UnitR (F : Type) : Type where
  name : Option String
  meter : Option F

/-- `Unit::new()`: note the non-empty defaults `Some("meter")` / `Some(1.0)`. -/
def UnitR.new {F : Type} (ops : FOps F) : UnitR F :=
  ⟨some "meter", some ops.one⟩

/-- `UpAxis` (src/core/asset.rs). -/
inductive UpAxis : Type where
  | XUP
  | YUP
  | ZUP
  deriving DecidableEq

/-- `fmt::Display for UpAxis`. -/
def upAxisFmt : UpAxis → String
  | .XUP => "X_UP"
  | .YUP => "Y_UP"
  | .ZUP => "Z_UP"

/-- `AltitudeMode` (src/core/location.rs). -/
inductive AltitudeMode : Type where
  | RelativeToGround
  | Absolute
  deriving DecidableEq

/-- `fmt::Display for AltitudeMode`. -/
def altitudeModeFmt : AltitudeMode → String
  | .RelativeToGround => "relativeToGround"
  | .Absolute => "absolute"

/-- `Location` (src/core/location.rs). -/
structure Location (F : Type) : Type where
  longitude : F
  latitude : F
  altitude : F
  mode : AltitudeMode

/-- `Location::new()`. -/
def Location.new {F : Type} (ops : FOps F) : Location F :=
  ⟨ops.zero, ops.zero, ops.zero, .RelativeToGround⟩

/-- The message of the arity failure for `<geographic_location>`
(the Rust string-literal line continuation joins the two lines). -/
def geoArityMsg : String :=
  "<geographic_location> element must have 3 children: <longitude>, <latitude>, <altitude>"

/-- Child loop of `Location::parse` over the children of the
geographic-location node.  Text is extracted first; the numeric parses
use `unwrap` and therefore crash on malformed input. -/
def locationGeoChildren {F : Type} (ops : FOps F) (l : Location F) :
    List Element → PRes (Location F)
  | [] => .ok l
  | c :: rest =>
    match c.text with
    | none => .err (.MissingData c.name)
    | some t =>
      if c.name = "longitude" then
        match ops.parseF t with
        | some v => locationGeoChildren ops { l with longitude := v } rest
        | none => .crash
      else if c.name = "latitude" then
        match ops.parseF t with
        | some v => locationGeoChildren ops { l with latitude := v } rest
        | none => .crash
      else if c.name = "altitude" then
        match ops.parseF t with
        | none => .crash
        | some v =>
          match getAttr c "mode" with
          | some m =>
            if m = "absolute" then
              locationGeoChildren ops { l with altitude := v, mode := .Absolute } rest
            else if m = "relativeToGround" then
              locationGeoChildren ops { l with altitude := v, mode := .RelativeToGround } rest
            else .err (.InvalidAttrData "altitude" "mode" m)
          | none => .err (.MissingAttr "altitude" "mode")
      else .err (.InvalidChild c.name "geographic_location")

/-- `Location::parse` (src/core/location.rs, lines 53-119).  The structural
check is the short-circuiting `e.children.len() != 1 &&
e.children[0].name != "geographic_location"` of the source; indexing
`e.children[0]` on an empty child list is the crash case. -/
def locationParse {F : Type} (ops : FOps F) (l : Location F) (e : Element) :
    PRes (Location F) :=
  if e.name ≠ "coverage" then .err (.MissingElement "location" "coverage")
  else
    match e.children with
    | [] => .crash
    | c0 :: rest =>
      if (c0 :: rest : List Element).length ≠ 1 ∧ c0.name ≠ "geographic_location" then
        .err (.MissingElement "location" "geographic_location")
      else if c0.children.length ≠ 3 then .err (.Invalid geoArityMsg)
      else locationGeoChildren ops l c0.children

/-- `Location::encode` (src/core/location.rs, lines 121-157): the altitude
text is the decimal rendering of `self.altitude as i32`. -/
def locationEncode {F : Type} (ops : FOps F) (l : Location F) : Element :=
  .mk "coverage" []
    [.mk "geographic_location" []
      [.mk "longitude" [] [] (some (ops.fmt l.longitude)),
        .mk "latitude" [] [] (some (ops.fmt l.latitude)),
        .mk "altitude" [("mode", altitudeModeFmt l.mode)] []
          (some (toString (ops.trunc l.altitude)))]
      none]
    none

end Collada

namespace Collada

/-! ## The mutually recursive records: Asset and Extra -/

mutual
/-- `Asset` (src/core/asset.rs): the root metadata record. -/
inductive Asset (F : Type) : Type where
  | mk (contributors : List Contributor) (location : Option (Location F))
      (created : String) (keywords : List String) (modified : String)
      (revision : Option String) (subject : Option String) (title : Option String)
      (unit : Option (UnitR F)) (up_axis : Option UpAxis) (extras : List (Extra F))

/-- `Extra` (src/core/extra.rs): optional attributes, optional nested
asset, and the technique list. -/
inductive Extra (F : Type) : Type where
  | mk (id : Option String) (name : Option String) (typ : Option String)
      (asset : Option (Asset F)) (techniques : List Technique)
end

variable {F : Type}

def Asset.contributors : Asset F → List Contributor
  | .mk v _ _ _ _ _ _ _ _ _ _ => v

def Asset.location : Asset F → Option (Location F)
  | .mk _ v _ _ _ _ _ _ _ _ _ => v

def Asset.created : Asset F → String
  | .mk _ _ v _ _ _ _ _ _ _ _ => v

def Asset.keywords : Asset F → List String
  | .mk _ _ _ v _ _ _ _ _ _ _ => v

def Asset.modified : Asset F → String
  | .mk _ _ _ _ v _ _ _ _ _ _ => v

def Asset.revision : Asset F → Option String
  | .mk _ _ _ _ _ v _ _ _ _ _ => v

def Asset.subject : Asset F → Option String
  | .mk _ _ _ _ _ _ v _ _ _ _ => v

def Asset.title : Asset F → Option String
  | .mk _ _ _ _ _ _ _ v _ _ _ => v

def Asset.unit : Asset F → Option (UnitR F)
  | .mk _ _ _ _ _ _ _ _ v _ _ => v

def Asset.up_axis : Asset F → Option UpAxis
  | .mk _ _ _ _ _ _ _ _ _ v _ => v

def Asset.extras : Asset F → List (Extra F)
  | .mk _ _ _ _ _ _ _ _ _ _ v => v

def Extra.id : Extra F → Option String
  | .mk v _ _ _ _ => v

def Extra.name : Extra F → Option String
  | .mk _ v _ _ _ => v

def Extra.typ : Extra F → Option String
  | .mk _ _ v _ _ => v

def Extra.asset : Extra F → Option (Asset F)
  | .mk _ _ _ v _ => v

def Extra.techniques : Extra F → List Technique
  | .mk _ _ _ _ v => v

/-- `Asset::new()`. -/
def Asset.new : Asset F :=
  .mk [] none "" [] "" none none none none none []

/-- `Extra::new()`. -/
def Extra.new : Extra F :=
  .mk none none none none []

def Asset.pushContributor (a : Asset F) (b : Contributor) : Asset F :=
  match a with
  | .mk cs l cr k m r s ti u ua xs => .mk (cs ++ [b]) l cr k m r s ti u ua xs

def Asset.setLocation (a : Asset F) (v : Location F) : Asset F :=
  match a with
  | .mk cs _ cr k m r s ti u ua xs => .mk cs (some v) cr k m r s ti u ua xs

def Asset.pushExtra (a : Asset F) (x : Extra F) : Asset F :=
  match a with
  | .mk cs l cr k m r s ti u ua xs => .mk cs l cr k m r s ti u ua (xs ++ [x])

def Asset.setUnit (a : Asset F) (v : UnitR F) : Asset F :=
  match a with
  | .mk cs l cr k m r s ti _ ua xs => .mk cs l cr k m r s ti (some v) ua xs

def Asset.setCreated (a : Asset F) (v : String) : Asset F :=
  match a with
  | .mk cs l _ k m r s ti u ua xs => .mk cs l v k m r s ti u ua xs

def Asset.appendKeywords (a : Asset F) (ks : List String) : Asset F :=
  match a with
  | .mk cs l cr k m r s ti u ua xs => .mk cs l cr (k ++ ks) m r s ti u ua xs

def Asset.setModified (a : Asset F) (v : String) : Asset F :=
  match a with
  | .mk cs l cr k _ r s ti u ua xs => .mk cs l cr k v r s ti u ua xs

def Asset.setRevision (a : Asset F) (v : String) : Asset F :=
  match a with
  | .mk cs l cr k m _ s ti u ua xs => .mk cs l cr k m (some v) s ti u ua xs

def Asset.setSubject (a : Asset F) (v : String) : Asset F :=
  match a with
  | .mk cs l cr k m r _ ti u ua xs => .mk cs l cr k m r (some v) ti u ua xs

def Asset.setTitle (a : Asset F) (v : String) : Asset F :=
  match a with
  | .mk cs l cr k m r s _ u ua xs => .mk cs l cr k m r s (some v) u ua xs

def Asset.setUpAxis (a : Asset F) (v : UpAxis) : Asset F :=
  match a with
  | .mk cs l cr k m r s ti u _ xs => .mk cs l cr k m r s ti u (some v) xs

def Extra.setId (x : Extra F) (v : Option String) : Extra F :=
  match x with
  | .mk _ n ty a ts => .mk v n ty a ts

def Extra.setName (x : Extra F) (v : Option String) : Extra F :=
  match x with
  | .mk i _ ty a ts => .mk i v ty a ts

def Extra.setTyp (x : Extra F) (v : Option String) : Extra F :=
  match x with
  | .mk i n _ a ts => .mk i n v a ts

def Extra.setAsset (x : Extra F) (v : Asset F) : Extra F :=
  match x with
  | .mk i n ty _ ts => .mk i n ty (some v) ts

def Extra.pushTechnique (x : Extra F) (t : Technique) : Extra F :=
  match x with
  | .mk i n ty a ts => .mk i n ty a (ts ++ [t])

end Collada

namespace Collada

variable {F : Type}

/-! ## Size lemmas used for termination of the mutual recursion -/

theorem Element.sizeOf_children_lt (e : Element) : sizeOf e.children < sizeOf e := by
  cases e with
  | mk n a c t => simp [Element.children]; omega

theorem getChild_sizeOf_lt {e : Element} {k : String} {c : Element}
    (h : getChild e k = some c) : sizeOf c < sizeOf e := by
  have hm : c ∈ e.children := List.mem_of_find?_eq_some h
  exact lt_trans (List.sizeOf_lt_of_mem hm) (Element.sizeOf_children_lt e)

theorem sizeOf_list_pos {α : Type} [SizeOf α] (l : List α) : 0 < sizeOf l := by
  cases l <;> simp

/-! ## Extra: the non-recursive pieces of `Extra::parse` -/

/-- Child loop of `Extra::parse`: techniques accumulate, an `asset` child
is skipped (already handled), anything else is an invalid child. -/
def extraChildren (x : Extra F) : List Element → PRes (Extra F)
  | [] => .ok x
  | c :: rest =>
    if c.name = "technique" then
      match techniqueParse Technique.new c with
      | .ok t => extraChildren (x.pushTechnique t) rest
      | .err er => .err er
      | .crash => .crash
    else if c.name = "asset" then extraChildren x rest
    else .err (.InvalidChild c.name "extra")

/-- Tail of `Extra::parse` after the attributes and the nested asset:
the fail-fast mandatory-technique check, then the child loop. -/
def extraFinish (x : Extra F) (e : Element) : PRes (Extra F) :=
  if (getChild e "technique").isNone then .err (.MissingElement "extra" "technique")
  else extraChildren x e.children

/-! ## The mutually recursive parsers: Asset and Extra -/

mutual
/-- `Asset::parse` (src/core/asset.rs, lines 87-160): a fold over the
children of the node; the node's own tag is never inspected. -/
def assetParse (ops : FOps F) (a : Asset F) (e : Element) : PRes (Asset F) :=
  assetChildren ops a e.children
termination_by sizeOf e
decreasing_by simp_wf; exact Element.sizeOf_children_lt e

/-- One iteration of the child loop of `Asset::parse`.  The four nested
tags are dispatched first (with `continue`); all other tags go through
the text extraction and the second dispatch. -/
def assetChild (ops : FOps F) (a : Asset F) (c : Element) : PRes (Asset F) :=
  if c.name = "contributor" then
    match contributorParse Contributor.new c with
    | .ok b => .ok (a.pushContributor b)
    | .err er => .err er
    | .crash => .crash
  else if c.name = "coverage" then
    match locationParse ops (Location.new ops) c with
    | .ok l => .ok (a.setLocation l)
    | .err er => .err er
    | .crash => .crash
  else if c.name = "extra" then
    match extraParse ops Extra.new c with
    | .ok x => .ok (a.pushExtra x)
    | .err er => .err er
    | .crash => .crash
  else if c.name = "unit" then
    match getAttr c "meter" with
    | some m =>
      match ops.parseF m with
      | some v => .ok (a.setUnit ⟨getAttr c "name", some v⟩)
      | none => .crash
    | none => .ok (a.setUnit ⟨getAttr c "name", none⟩)
  else
    match c.text with
    | none => .err (.MissingData c.name)
    | some t =>
      if c.name = "created" then .ok (a.setCreated t)
      else if c.name = "keywords" then .ok (a.appendKeywords (splitWhitespace t))
      else if c.name = "modified" then .ok (a.setModified t)
      else if c.name = "revision" then .ok (a.setRevision t)
      else if c.name = "subject" then .ok (a.setSubject t)
      else if c.name = "title" then .ok (a.setTitle t)
      else if c.name = "up_axis" then
        if t = "X_UP" then .ok (a.setUpAxis .XUP)
        else if t = "Y_UP" then .ok (a.setUpAxis .YUP)
        else if t = "Z_UP" then .ok (a.setUpAxis .ZUP)
        else .err (.InvalidData "up_axis" t)
      else .err (.InvalidChild c.name "asset")
termination_by sizeOf c + 1
decreasing_by simp_wf; try omega

/-- Child loop of `Asset::parse`: each child is processed by `assetChild`,
a failure aborts the loop immediately. -/
def assetChildren (ops : FOps F) (a : Asset F) (cs : List Element) : PRes (Asset F) :=
  match cs with
  | [] => .ok a
  | c :: rest =>
    match assetChild ops a c with
    | .ok a2 => assetChildren ops a2 rest
    | .err er => .err er
    | .crash => .crash
termination_by sizeOf cs
decreasing_by all_goals (first
  | (simp_wf; omega)
  | (simp_wf; have := sizeOf_list_pos rest; omega)
  | simp_wf)

/-- `Extra::parse` (src/core/extra.rs, lines 29-77): attributes, then the
optional nested asset, then the fail-fast technique check and child loop. -/
def extraParse (ops : FOps F) (x : Extra F) (e : Element) : PRes (Extra F) :=
  let x1 := ((x.setId (getAttr e "id")).setName (getAttr e "name")).setTyp (getAttr e "type")
  match h : getChild e "asset" with
  | some an =>
    match assetParse ops Asset.new an with
    | .ok a => extraFinish (x1.setAsset a) e
    | .err er => .err er
    | .crash => .crash
  | none => extraFinish x1 e
termination_by sizeOf e
decreasing_by simp_wf; exact getChild_sizeOf_lt h
end

end Collada

namespace Collada

variable {F : Type}

/-! ## Encoders -/

/-- An attribute entry emitted only when the field is set (the encoders
never write an empty attribute for an unset field). -/
def optAttr (k : String) : Option String → List (String × String)
  | some v => [(k, v)]
  | none => []

/-- The `<unit>` element built by `Asset::encode`: `name` and `meter`
attributes inserted only when set, `meter` rendered with `Display`. -/
def unitEncode (ops : FOps F) (u : UnitR F) : Element :=
  .mk "unit" (optAttr "name" u.name ++ optAttr "meter" (u.meter.map ops.fmt)) [] none

mutual
/-- `Asset::encode` (src/core/asset.rs, lines 162-272): children in the
fixed order contributors, coverage, created, keywords, modified,
revision, subject, title, unit, up_axis, extras. -/
def assetEncode (ops : FOps F) (a : Asset F) : Element :=
  .mk "asset" []
    (a.contributors.map contributorEncode ++
      (match a.location with
        | some l => [locationEncode ops l]
        | none => []) ++
      [.mk "created" [] [] (some a.created)] ++
      [.mk "keywords" [] [] (some (kwJoin a.keywords))] ++
      [.mk "modified" [] [] (some a.modified)] ++
      optTextChild "revision" a.revision ++
      optTextChild "subject" a.subject ++
      optTextChild "title" a.title ++
      (match a.unit with
        | some u => [unitEncode ops u]
        | none => []) ++
      (match a.up_axis with
        | some ax => [.mk "up_axis" [] [] (some (upAxisFmt ax))]
        | none => []) ++
      a.extras.attach.map (fun y => extraEncode ops y.1))
    none
termination_by sizeOf a
decreasing_by
  simp_wf
  have h1 := List.sizeOf_lt_of_mem y.2
  cases a with
  | mk cs l cr k m r s ti u ua xs => simp [Asset.extras] at h1 ⊢; omega

/-- `Extra::encode` (src/core/extra.rs, lines 79-102): attributes when
set, then the nested asset, then the techniques in order. -/
def extraEncode (ops : FOps F) (x : Extra F) : Element :=
  .mk "extra"
    (optAttr "id" x.id ++ optAttr "name" x.name ++ optAttr "type" x.typ)
    ((match h : x.asset with
      | some a => [assetEncode ops a]
      | none => []) ++
      x.techniques.map techniqueEncode)
    none
termination_by sizeOf x
decreasing_by
  simp_wf
  cases x with
  | mk i n ty a ts => simp [Extra.asset] at h; subst h; simp; omega
end

/-! ## Normalization: what a re-parse of an encoded record yields

`locNorm` records the only lossy-by-design transform: the altitude is
truncated to an integer on encode, so the re-parsed altitude is the float
denoting that integer.  `assetNorm`/`extraNorm` push this through the
recursion; every other field is returned unchanged. -/

/-- The re-parsed image of an encoded `Location`: identical except that
the altitude has been truncated to an integer. -/
def locNorm (ops : FOps F) (l : Location F) : Location F :=
  { l with altitude := ops.ofInt (ops.trunc l.altitude) }

mutual
/-- The re-parsed image of an encoded `Asset`: altitudes of the contained
locations truncated, all other fields unchanged. -/
def assetNorm (ops : FOps F) (a : Asset F) : Asset F :=
  .mk a.contributors (a.location.map (locNorm ops)) a.created a.keywords
    a.modified a.revision a.subject a.title a.unit a.up_axis
    (a.extras.attach.map (fun y => extraNorm ops y.1))
termination_by sizeOf a
decreasing_by
  simp_wf
  have h1 := List.sizeOf_lt_of_mem y.2
  cases a with
  | mk cs l cr k m r s ti u ua xs => simp [Asset.extras] at h1 ⊢; omega

/-- The re-parsed image of an encoded `Extra`. -/
def extraNorm (ops : FOps F) (x : Extra F) : Extra F :=
  .mk x.id x.name x.typ
    (match h : x.asset with
      | some a => some (assetNorm ops a)
      | none => none)
    x.techniques
termination_by sizeOf x
decreasing_by
  simp_wf
  cases x with
  | mk i n ty a ts => simp [Extra.asset] at h; subst h; simp; omega
end

/-! ## Invariants established by a successful parse

These are exactly the facts about a parsed record that the round-trip
proof needs when re-parsing its encoding. -/

/-- A keyword token produced by `split_whitespace`: non-empty and free of
whitespace characters. -/
def kwTok (k : String) : Prop :=
  k ≠ "" ∧ ∀ c ∈ k.data, ¬c.isWhitespace

/-- Invariant of a parsed `Technique`: the retained node is the original
`<technique>` element, so its tag is `technique`, its `profile` attribute
is the recorded profile, and `xmlns` was never populated. -/
def TInv (t : Technique) : Prop :=
  t.data.name = "technique" ∧ getAttr t.data "profile" = some t.profile ∧ t.xmlns = none

mutual
/-- Invariant of a parsed `Asset`: all keyword tokens came from
`split_whitespace`, and all contained extras satisfy `XInv`. -/
def AInv (a : Asset F) : Prop :=
  (∀ k ∈ a.keywords, kwTok k) ∧ ∀ y ∈ a.extras.attach, XInv y.1
termination_by sizeOf a
decreasing_by
  simp_wf
  have h1 := List.sizeOf_lt_of_mem y.2
  cases a with
  | mk cs l cr k m r s ti u ua xs => simp [Asset.extras] at h1 ⊢; omega

/-- Invariant of a parsed `Extra`: at least one technique, all techniques
satisfy `TInv`, and the nested asset (if any) satisfies `AInv`. -/
def XInv (x : Extra F) : Prop :=
  x.techniques ≠ [] ∧ (∀ t ∈ x.techniques, TInv t) ∧
    match h : x.asset with
    | some a => AInv a
    | none => True
termination_by sizeOf x
decreasing_by
  simp_wf
  cases x with
  | mk i n ty a ts => simp [Extra.asset] at h; subst h; simp; omega
end

end Collada
namespace Collada

/-! ## Facts about keyword splitting and joining -/

/-- A non-empty all-non-whitespace accumulator yields a good token. -/
theorem kwTok_mk_reverse {acc : List Char} (hne : acc ≠ [])
    (hacc : ∀ c ∈ acc, ¬c.isWhitespace) : kwTok (String.mk acc.reverse) := by
  constructor
  · intro h
    have : acc.reverse = ([] : List Char) := congrArg String.data h
    simp at this
    exact hne this
  · intro c hc
    exact hacc c (List.mem_reverse.mp hc)

/-- Every token produced by `split_whitespace` is non-empty and free of
whitespace. -/
theorem splitWSAux_tokens :
    ∀ (cs acc : List Char), (∀ c ∈ acc, ¬c.isWhitespace) →
      ∀ k ∈ splitWSAux cs acc, kwTok k := by
  intro cs
  induction cs with
  | nil =>
    intro acc hacc k hk
    simp only [splitWSAux] at hk
    split at hk
    · simp at hk
    · next hne =>
      simp at hk
      subst hk
      exact kwTok_mk_reverse (by simpa [List.isEmpty_iff] using hne) hacc
  | cons c cs ih =>
    intro acc hacc k hk
    simp only [splitWSAux] at hk
    by_cases hws : c.isWhitespace
    · rw [if_pos hws] at hk
      by_cases hae : acc.isEmpty
      · rw [if_pos hae] at hk
        exact ih [] (by simp) k hk
      · rw [if_neg hae] at hk
        rcases List.mem_cons.mp hk with h | h
        · subst h
          exact kwTok_mk_reverse (by simpa [List.isEmpty_iff] using hae) hacc
        · exact ih [] (by simp) k h
    · rw [if_neg hws] at hk
      refine ih (c :: acc) ?_ k hk
      intro d hd
      rcases List.mem_cons.mp hd with h | h
      · subst h; exact hws
      · exact hacc d h

/-- Helper: the concatenation every keyword followed by a space, before
the final `pop`. -/
def joinSpAll : List String → List Char
  | [] => []
  | k :: ks => k.data ++ ' ' :: joinSpAll ks

theorem foldl_eq_joinSpAll :
    ∀ (ks : List String) (init : List Char),
      ks.foldl (fun l k => l ++ k.data ++ [' ']) init = init ++ joinSpAll ks := by
  intro ks
  induction ks with
  | nil => intro init; simp [joinSpAll]
  | cons k ks ih =>
    intro init
    simp only [List.foldl_cons, joinSpAll]
    rw [ih]
    simp

theorem joinSpAll_ne_nil (k : String) (ks : List String) :
    joinSpAll (k :: ks) ≠ [] := by
  simp [joinSpAll]

/-- Running the splitter through a whitespace-free prefix just moves the
prefix (reversed) into the accumulator. -/
theorem splitWSAux_run :
    ∀ (kd : List Char), (∀ c ∈ kd, ¬c.isWhitespace) →
      ∀ (cs acc : List Char), splitWSAux (kd ++ cs) acc = splitWSAux cs (kd.reverse ++ acc) := by
  intro kd
  induction kd with
  | nil => intro _ cs acc; simp
  | cons c kd ih =>
    intro h cs acc
    have hc : ¬c.isWhitespace := h c (List.mem_cons_self c kd)
    simp only [List.cons_append, splitWSAux, if_neg hc]
    show splitWSAux (kd ++ cs) (c :: acc) = _
    rw [ih (fun d hd => h d (List.mem_cons_of_mem c hd)) cs (c :: acc)]
    simp

/-- Splitting the joined keyword text recovers exactly the keyword list,
provided every keyword is a good token. -/
theorem splitWSAux_joinSpAll :
    ∀ (ks : List String), (∀ k ∈ ks, kwTok k) →
      splitWSAux (joinSpAll ks).dropLast [] = ks := by
  intro ks
  induction ks with
  | nil => intro _; simp [joinSpAll, splitWSAux]
  | cons k ks ih =>
    intro hks
    have hk : kwTok k := hks k (List.mem_cons_self k ks)
    have hkd : k.data ≠ [] := by
      intro h
      exact hk.1 (by cases k; simp_all)
    have hkw : ∀ c ∈ k.data, ¬c.isWhitespace := hk.2
    cases ks with
    | nil =>
      simp only [joinSpAll]
      rw [show k.data ++ ' ' :: ([] : List Char) = k.data ++ [' '] by simp,
        List.dropLast_concat]
      rw [show (k.data : List Char) = k.data ++ [] by simp, splitWSAux_run k.data hkw [] _]
      simp only [splitWSAux, List.append_nil]
      rw [if_neg (by simpa [List.isEmpty_iff] using (by simpa using hkd : k.data.reverse ≠ []))]
      simp
    | cons k' ks' =>
      show splitWSAux (k.data ++ ' ' :: joinSpAll (k' :: ks')).dropLast [] = _
      rw [List.dropLast_append_of_ne_nil _ (by simp),
        List.dropLast_cons_of_ne_nil (joinSpAll_ne_nil k' ks')]
      rw [splitWSAux_run k.data hkw _ []]
      simp only [splitWSAux, List.append_nil]
      rw [if_pos (by decide : (' ' : Char).isWhitespace = true)]
      rw [if_neg (by simpa [List.isEmpty_iff] using (by simpa using hkd : k.data.reverse ≠ []))]
      rw [ih (fun x hx => hks x (List.mem_cons_of_mem k hx))]
      simp

/-- `split_whitespace` of the encoder's keyword text is the identity on
good keyword lists. -/
theorem splitWhitespace_kwJoin (ks : List String) (h : ∀ k ∈ ks, kwTok k) :
    splitWhitespace (kwJoin ks) = ks := by
  have : kwJoinChars ks = (joinSpAll ks).dropLast := by
    rw [kwJoinChars, foldl_eq_joinSpAll]
    simp
  simp only [splitWhitespace, kwJoin, this]
  exact splitWSAux_joinSpAll ks h

end Collada
namespace Collada

variable {F : Type}

/-! ## Round trips for the flat records -/

/-- Re-parsing an encoded `Contributor` recovers it exactly, whatever the
field values. -/
theorem contributorEncode_parse (b : Contributor) :
    contributorParse Contributor.new (contributorEncode b) = .ok b := by
  rcases b with ⟨a1 | a1, a2 | a2, a3 | a3, a4 | a4, a5 | a5, a6 | a6, a7 | a7⟩ <;>
    simp [contributorParse, contributorEncode, contributorChildren, optTextChild,
      Contributor.new]

/-- Re-parsing the node retained by a parsed `Technique` recovers the
record exactly. -/
theorem techniqueEncode_parse {t : Technique} (h : TInv t) :
    techniqueParse Technique.new (techniqueEncode t) = .ok t := by
  obtain ⟨h1, h2, h3⟩ := h
  rcases t with ⟨p, x, d⟩
  simp only [Technique.data] at h1 h2
  simp only [Technique.xmlns] at h3
  subst h3
  simp [techniqueParse, techniqueEncode, Technique.new, h1, h2]

/-- A successful `Technique::parse` starting from `Technique::new`
establishes the technique invariant. -/
theorem techniqueParse_inv {t0 t : Technique} {e : Element}
    (h0 : t0.xmlns = none) (h : techniqueParse t0 e = .ok t) : TInv t := by
  rw [techniqueParse] at h
  split at h
  · cases h
  · next hname =>
    split at h
    · next p hp =>
      cases h
      refine ⟨by simpa using hname, by simpa using hp, by simpa using h0⟩
    · cases h

/-- Re-parsing an encoded `Location` recovers it with the altitude
truncated to an integer. -/
theorem locationEncode_parse (ops : FOps F) (hl : ops.Lawful) (l : Location F) :
    locationParse ops (Location.new ops) (locationEncode ops l) = .ok (locNorm ops l) := by
  obtain ⟨hfmt, hint⟩ := hl
  rcases l with ⟨lon, lat, alt, mode⟩
  cases mode <;>
    simp [locationParse, locationEncode, locationGeoChildren, locNorm, getAttr,
      altitudeModeFmt, hfmt, hint]

end Collada
namespace Collada

variable {F : Type}

/-! ## Composition of the child loops over list append -/

/-- Sequencing of parse outcomes (the effect of an early `return Err`). -/
def PRes.bind {α β : Type} : PRes α → (α → PRes β) → PRes β
  | .ok a, f => f a
  | .err e, _ => .err e
  | .crash, _ => .crash

@[simp] theorem PRes.bind_ok {α β : Type} (a : α) (f : α → PRes β) :
    (PRes.ok a).bind f = f a := rfl

@[simp] theorem PRes.bind_err {α β : Type} (e : ColladaError) (f : α → PRes β) :
    (PRes.err e).bind f = .err e := rfl

@[simp] theorem PRes.bind_crash {α β : Type} (f : α → PRes β) :
    (PRes.crash : PRes α).bind f = .crash := rfl

theorem contributorChildren_append (b : Contributor) (xs ys : List Element) :
    contributorChildren b (xs ++ ys) =
      (contributorChildren b xs).bind (fun b2 => contributorChildren b2 ys) := by
  induction xs generalizing b with
  | nil => simp [contributorChildren]
  | cons c rest ih =>
    simp only [List.cons_append, contributorChildren]
    cases c.text with
    | none => rfl
    | some t => split_ifs <;> simp [ih]

theorem assetChildren_append (ops : FOps F) (a : Asset F) (xs ys : List Element) :
    assetChildren ops a (xs ++ ys) =
      (assetChildren ops a xs).bind (fun a2 => assetChildren ops a2 ys) := by
  induction xs generalizing a with
  | nil => simp [assetChildren]
  | cons c rest ih =>
    simp only [List.cons_append, assetChildren]
    cases assetChild ops a c <;> simp [ih, PRes.bind]

theorem extraChildren_append (x : Extra F) (xs ys : List Element) :
    extraChildren x (xs ++ ys) =
      (extraChildren x xs).bind (fun x2 => extraChildren x2 ys) := by
  induction xs generalizing x with
  | nil => simp [extraChildren]
  | cons c rest ih =>
    simp only [List.cons_append, extraChildren]
    split_ifs <;> [skip; simp [ih]; rfl]
    cases techniqueParse Technique.new c <;> simp [ih, PRes.bind]

end Collada
namespace Collada

variable {F : Type}

/-! ## Computation rules for the record projections and setters -/

@[simp] theorem Asset.contributors_mk (cs l cr k m r s ti u ua xs) :
    (Asset.mk (F := F) cs l cr k m r s ti u ua xs).contributors = cs := rfl

@[simp] theorem Asset.location_mk (cs l cr k m r s ti u ua xs) :
    (Asset.mk (F := F) cs l cr k m r s ti u ua xs).location = l := rfl

@[simp] theorem Asset.created_mk (cs l cr k m r s ti u ua xs) :
    (Asset.mk (F := F) cs l cr k m r s ti u ua xs).created = cr := rfl

@[simp] theorem Asset.keywords_mk (cs l cr k m r s ti u ua xs) :
    (Asset.mk (F := F) cs l cr k m r s ti u ua xs).keywords = k := rfl

@[simp] theorem Asset.modified_mk (cs l cr k m r s ti u ua xs) :
    (Asset.mk (F := F) cs l cr k m r s ti u ua xs).modified = m := rfl

@[simp] theorem Asset.revision_mk (cs l cr k m r s ti u ua xs) :
    (Asset.mk (F := F) cs l cr k m r s ti u ua xs).revision = r := rfl

@[simp] theorem Asset.subject_mk (cs l cr k m r s ti u ua xs) :
    (Asset.mk (F := F) cs l cr k m r s ti u ua xs).subject = s := rfl

@[simp] theorem Asset.title_mk (cs l cr k m r s ti u ua xs) :
    (Asset.mk (F := F) cs l cr k m r s ti u ua xs).title = ti := rfl

@[simp] theorem Asset.unit_mk (cs l cr k m r s ti u ua xs) :
    (Asset.mk (F := F) cs l cr k m r s ti u ua xs).unit = u := rfl

@[simp] theorem Asset.up_axis_mk (cs l cr k m r s ti u ua xs) :
    (Asset.mk (F := F) cs l cr k m r s ti u ua xs).up_axis = ua := rfl

@[simp] theorem Asset.extras_mk (cs l cr k m r s ti u ua xs) :
    (Asset.mk (F := F) cs l cr k m r s ti u ua xs).extras = xs := rfl

@[simp] theorem Extra.id_mk (i n ty a ts) :
    (Extra.mk (F := F) i n ty a ts).id = i := rfl

@[simp] theorem Extra.name_mk (i n ty a ts) :
    (Extra.mk (F := F) i n ty a ts).name = n := rfl

@[simp] theorem Extra.typ_mk (i n ty a ts) :
    (Extra.mk (F := F) i n ty a ts).typ = ty := rfl

@[simp] theorem Extra.asset_mk (i n ty a ts) :
    (Extra.mk (F := F) i n ty a ts).asset = a := rfl

@[simp] theorem Extra.techniques_mk (i n ty a ts) :
    (Extra.mk (F := F) i n ty a ts).techniques = ts := rfl

@[simp] theorem Asset.pushContributor_mk (cs l cr k m r s ti u ua xs b) :
    (Asset.mk (F := F) cs l cr k m r s ti u ua xs).pushContributor b =
      .mk (cs ++ [b]) l cr k m r s ti u ua xs := rfl

@[simp] theorem Asset.setLocation_mk (cs l cr k m r s ti u ua xs v) :
    (Asset.mk (F := F) cs l cr k m r s ti u ua xs).setLocation v =
      .mk cs (some v) cr k m r s ti u ua xs := rfl

@[simp] theorem Asset.pushExtra_mk (cs l cr k m r s ti u ua xs v) :
    (Asset.mk (F := F) cs l cr k m r s ti u ua xs).pushExtra v =
      .mk cs l cr k m r s ti u ua (xs ++ [v]) := rfl

@[simp] theorem Asset.setUnit_mk (cs l cr k m r s ti u ua xs v) :
    (Asset.mk (F := F) cs l cr k m r s ti u ua xs).setUnit v =
      .mk cs l cr k m r s ti (some v) ua xs := rfl

@[simp] theorem Asset.setCreated_mk (cs l cr k m r s ti u ua xs v) :
    (Asset.mk (F := F) cs l cr k m r s ti u ua xs).setCreated v =
      .mk cs l v k m r s ti u ua xs := rfl

@[simp] theorem Asset.appendKeywords_mk (cs l cr k m r s ti u ua xs v) :
    (Asset.mk (F := F) cs l cr k m r s ti u ua xs).appendKeywords v =
      .mk cs l cr (k ++ v) m r s ti u ua xs := rfl

@[simp] theorem Asset.setModified_mk (cs l cr k m r s ti u ua xs v) :
    (Asset.mk (F := F) cs l cr k m r s ti u ua xs).setModified v =
      .mk cs l cr k v r s ti u ua xs := rfl

@[simp] theorem Asset.setRevision_mk (cs l cr k m r s ti u ua xs v) :
    (Asset.mk (F := F) cs l cr k m r s ti u ua xs).setRevision v =
      .mk cs l cr k m (some v) s ti u ua xs := rfl

@[simp] theorem Asset.setSubject_mk (cs l cr k m r s ti u ua xs v) :
    (Asset.mk (F := F) cs l cr k m r s ti u ua xs).setSubject v =
      .mk cs l cr k m r (some v) ti u ua xs := rfl

@[simp] theorem Asset.setTitle_mk (cs l cr k m r s ti u ua xs v) :
    (Asset.mk (F := F) cs l cr k m r s ti u ua xs).setTitle v =
      .mk cs l cr k m r s (some v) u ua xs := rfl

@[simp] theorem Asset.setUpAxis_mk (cs l cr k m r s ti u ua xs v) :
    (Asset.mk (F := F) cs l cr k m r s ti u ua xs).setUpAxis v =
      .mk cs l cr k m r s ti u (some v) xs := rfl

@[simp] theorem Extra.setId_mk (i n ty a ts v) :
    (Extra.mk (F := F) i n ty a ts).setId v = .mk v n ty a ts := rfl

@[simp] theorem Extra.setName_mk (i n ty a ts v) :
    (Extra.mk (F := F) i n ty a ts).setName v = .mk i v ty a ts := rfl

@[simp] theorem Extra.setTyp_mk (i n ty a ts v) :
    (Extra.mk (F := F) i n ty a ts).setTyp v = .mk i n v a ts := rfl

@[simp] theorem Extra.setAsset_mk (i n ty a ts v) :
    (Extra.mk (F := F) i n ty a ts).setAsset v = .mk i n ty (some v) ts := rfl

@[simp] theorem Extra.pushTechnique_mk (i n ty a ts v) :
    (Extra.mk (F := F) i n ty a ts).pushTechnique v = .mk i n ty a (ts ++ [v]) := rfl

end Collada
namespace Collada

variable {F : Type}

/-! ## Unfolding the invariants -/

theorem AInv_iff (a : Asset F) :
    AInv a ↔ (∀ k ∈ a.keywords, kwTok k) ∧ (∀ x ∈ a.extras, XInv x) := by
  rw [AInv]
  constructor
  · rintro ⟨h1, h2⟩
    exact ⟨h1, fun x hx => h2 ⟨x, hx⟩ (List.mem_attach _ _)⟩
  · rintro ⟨h1, h2⟩
    exact ⟨h1, fun y _ => h2 y.1 y.2⟩

theorem XInv_iff (x : Extra F) :
    XInv x ↔ x.techniques ≠ [] ∧ (∀ t ∈ x.techniques, TInv t) ∧
      (∀ a, x.asset = some a → AInv a) := by
  rw [XInv]
  cases hx : x.asset <;> simp [hx]

/-! ## What a successful parse establishes: the invariants -/

/-- The techniques pushed by the `Extra::parse` child loop: bookkeeping of
the loop's effect on the record. -/
theorem extraChildren_info :
    ∀ (cs : List Element) (x0 x : Extra F), extraChildren x0 cs = .ok x →
      x.id = x0.id ∧ x.name = x0.name ∧ x.typ = x0.typ ∧ x.asset = x0.asset ∧
      ∃ ts, x.techniques = x0.techniques ++ ts ∧ (∀ t ∈ ts, TInv t) ∧
        ((∃ c ∈ cs, c.name = "technique") → ts ≠ []) := by
  intro cs
  induction cs with
  | nil =>
    intro x0 x h
    simp only [extraChildren] at h
    cases h
    exact ⟨rfl, rfl, rfl, rfl, [], by simp, by simp, by simp⟩
  | cons c rest ih =>
    intro x0 x h
    simp only [extraChildren] at h
    split_ifs at h with h1 h2
    · -- technique child
      cases htp : techniqueParse Technique.new c with
      | ok t =>
        rw [htp] at h
        obtain ⟨e1, e2, e3, e4, ts, hts, htsInv, hne⟩ := ih (x0.pushTechnique t) x h
        rcases x0 with ⟨i, n, ty, a, ts0⟩
        refine ⟨by simpa using e1, by simpa using e2, by simpa using e3,
          by simpa using e4, t :: ts, ?_, ?_, by simp⟩
        · simpa using hts
        · intro t' ht'
          rcases List.mem_cons.mp ht' with h' | h'
          · subst h'; exact techniqueParse_inv rfl htp
          · exact htsInv t' h'
      | err er => rw [htp] at h; cases h
      | crash => rw [htp] at h; cases h
    · -- asset child: skipped
      obtain ⟨e1, e2, e3, e4, ts, hts, htsInv, hne⟩ := ih x0 x h
      refine ⟨e1, e2, e3, e4, ts, hts, htsInv, ?_⟩
      rintro ⟨c', hc', hname⟩
      rcases List.mem_cons.mp hc' with h' | h'
      · subst h'; exact absurd hname h1
      · exact hne ⟨c', h', hname⟩

end Collada
namespace Collada

variable {F : Type}

/-! ## Projections of the setters -/

@[simp] theorem Asset.keywords_pushContributor (a : Asset F) (b) :
    (a.pushContributor b).keywords = a.keywords := by cases a; rfl

@[simp] theorem Asset.extras_pushContributor (a : Asset F) (b) :
    (a.pushContributor b).extras = a.extras := by cases a; rfl

@[simp] theorem Asset.keywords_setLocation (a : Asset F) (v) :
    (a.setLocation v).keywords = a.keywords := by cases a; rfl

@[simp] theorem Asset.extras_setLocation (a : Asset F) (v) :
    (a.setLocation v).extras = a.extras := by cases a; rfl

@[simp] theorem Asset.keywords_setUnit (a : Asset F) (v) :
    (a.setUnit v).keywords = a.keywords := by cases a; rfl

@[simp] theorem Asset.extras_setUnit (a : Asset F) (v) :
    (a.setUnit v).extras = a.extras := by cases a; rfl

@[simp] theorem Asset.keywords_setCreated (a : Asset F) (v) :
    (a.setCreated v).keywords = a.keywords := by cases a; rfl

@[simp] theorem Asset.extras_setCreated (a : Asset F) (v) :
    (a.setCreated v).extras = a.extras := by cases a; rfl

@[simp] theorem Asset.keywords_setModified (a : Asset F) (v) :
    (a.setModified v).keywords = a.keywords := by cases a; rfl

@[simp] theorem Asset.extras_setModified (a : Asset F) (v) :
    (a.setModified v).extras = a.extras := by cases a; rfl

@[simp] theorem Asset.keywords_setRevision (a : Asset F) (v) :
    (a.setRevision v).keywords = a.keywords := by cases a; rfl

@[simp] theorem Asset.extras_setRevision (a : Asset F) (v) :
    (a.setRevision v).extras = a.extras := by cases a; rfl

@[simp] theorem Asset.keywords_setSubject (a : Asset F) (v) :
    (a.setSubject v).keywords = a.keywords := by cases a; rfl

@[simp] theorem Asset.extras_setSubject (a : Asset F) (v) :
    (a.setSubject v).extras = a.extras := by cases a; rfl

@[simp] theorem Asset.keywords_setTitle (a : Asset F) (v) :
    (a.setTitle v).keywords = a.keywords := by cases a; rfl

@[simp] theorem Asset.extras_setTitle (a : Asset F) (v) :
    (a.setTitle v).extras = a.extras := by cases a; rfl

@[simp] theorem Asset.keywords_setUpAxis (a : Asset F) (v) :
    (a.setUpAxis v).keywords = a.keywords := by cases a; rfl

@[simp] theorem Asset.extras_setUpAxis (a : Asset F) (v) :
    (a.setUpAxis v).extras = a.extras := by cases a; rfl

@[simp] theorem Asset.keywords_pushExtra (a : Asset F) (v) :
    (a.pushExtra v).keywords = a.keywords := by cases a; rfl

@[simp] theorem Asset.extras_pushExtra (a : Asset F) (v) :
    (a.pushExtra v).extras = a.extras ++ [v] := by cases a; rfl

@[simp] theorem Asset.keywords_appendKeywords (a : Asset F) (v) :
    (a.appendKeywords v).keywords = a.keywords ++ v := by cases a; rfl

@[simp] theorem Asset.extras_appendKeywords (a : Asset F) (v) :
    (a.appendKeywords v).extras = a.extras := by cases a; rfl

/-- `Asset::new` satisfies the asset invariant. -/
theorem AInv_new : AInv (Asset.new : Asset F) := by
  rw [show (Asset.new : Asset F) = .mk [] none "" [] "" none none none none none [] from rfl]
  rw [AInv_iff]
  simp

/-- Invariance transport: a record with the same keywords and extras as an
invariant-satisfying one satisfies the invariant. -/
theorem AInv_of_same {a0 a1 : Asset F} (hk : a1.keywords = a0.keywords)
    (hx : a1.extras = a0.extras) (h0 : AInv a0) : AInv a1 := by
  rw [AInv_iff] at h0 ⊢
  rw [hk, hx]
  exact h0

/-- A single `Asset::parse` loop iteration preserves the asset invariant,
given that nested extra parses on this child establish theirs. -/
theorem assetChild_inv (ops : FOps F) {a0 a1 : Asset F} {c : Element}
    (hx : ∀ x : Extra F, extraParse ops Extra.new c = .ok x → XInv x)
    (h0 : AInv a0) (h : assetChild ops a0 c = .ok a1) : AInv a1 := by
  rw [assetChild] at h
  by_cases h1 : c.name = "contributor"
  · rw [if_pos h1] at h
    cases hcp : contributorParse Contributor.new c with
    | ok b => rw [hcp] at h; cases h; exact AInv_of_same (by simp) (by simp) h0
    | err er => rw [hcp] at h; cases h
    | crash => rw [hcp] at h; cases h
  · rw [if_neg h1] at h
    by_cases h2 : c.name = "coverage"
    · rw [if_pos h2] at h
      cases hlp : locationParse ops (Location.new ops) c with
      | ok l => rw [hlp] at h; cases h; exact AInv_of_same (by simp) (by simp) h0
      | err er => rw [hlp] at h; cases h
      | crash => rw [hlp] at h; cases h
    · rw [if_neg h2] at h
      by_cases h3 : c.name = "extra"
      · rw [if_pos h3] at h
        cases hxp : extraParse ops Extra.new c with
        | ok y =>
          rw [hxp] at h
          cases h
          rw [AInv_iff] at h0 ⊢
          simp only [Asset.keywords_pushExtra, Asset.extras_pushExtra]
          refine ⟨h0.1, ?_⟩
          intro z hz
          rcases List.mem_append.mp hz with hz | hz
          · exact h0.2 z hz
          · rw [List.mem_singleton.mp hz]
            exact hx y hxp
        | err er => rw [hxp] at h; cases h
        | crash => rw [hxp] at h; cases h
      · rw [if_neg h3] at h
        by_cases h4 : c.name = "unit"
        · rw [if_pos h4] at h
          split at h
          · split at h
            · cases h; exact AInv_of_same (by simp) (by simp) h0
            · cases h
          · cases h; exact AInv_of_same (by simp) (by simp) h0
        · rw [if_neg h4] at h
          split at h
          · cases h
          · next t htx =>
            by_cases g1 : c.name = "created"
            · rw [if_pos g1] at h; cases h
              exact AInv_of_same (by simp) (by simp) h0
            · rw [if_neg g1] at h
              by_cases g2 : c.name = "keywords"
              · rw [if_pos g2] at h
                cases h
                rw [AInv_iff] at h0 ⊢
                simp only [Asset.keywords_appendKeywords, Asset.extras_appendKeywords]
                refine ⟨?_, h0.2⟩
                intro kw hkw
                rcases List.mem_append.mp hkw with hkw | hkw
                · exact h0.1 kw hkw
                · exact splitWSAux_tokens t.data [] (by simp) kw hkw
              · rw [if_neg g2] at h
                by_cases g3 : c.name = "modified"
                · rw [if_pos g3] at h; cases h
                  exact AInv_of_same (by simp) (by simp) h0
                · rw [if_neg g3] at h
                  by_cases g4 : c.name = "revision"
                  · rw [if_pos g4] at h; cases h
                    exact AInv_of_same (by simp) (by simp) h0
                  · rw [if_neg g4] at h
                    by_cases g5 : c.name = "subject"
                    · rw [if_pos g5] at h; cases h
                      exact AInv_of_same (by simp) (by simp) h0
                    · rw [if_neg g5] at h
                      by_cases g6 : c.name = "title"
                      · rw [if_pos g6] at h; cases h
                        exact AInv_of_same (by simp) (by simp) h0
                      · rw [if_neg g6] at h
                        by_cases g7 : c.name = "up_axis"
                        · rw [if_pos g7] at h
                          by_cases u1 : t = "X_UP"
                          · rw [if_pos u1] at h; cases h
                            exact AInv_of_same (by simp) (by simp) h0
                          · rw [if_neg u1] at h
                            by_cases u2 : t = "Y_UP"
                            · rw [if_pos u2] at h; cases h
                              exact AInv_of_same (by simp) (by simp) h0
                            · rw [if_neg u2] at h
                              by_cases u3 : t = "Z_UP"
                              · rw [if_pos u3] at h; cases h
                                exact AInv_of_same (by simp) (by simp) h0
                              · rw [if_neg u3] at h; cases h
                        · rw [if_neg g7] at h; cases h

end Collada
namespace Collada

variable {F : Type}

/-- The tail of `Extra::parse` establishes the extra invariant. -/
theorem extraFinish_inv {x1 x : Extra F} {e : Element}
    (ht : ∀ t ∈ x1.techniques, TInv t) (ha : ∀ b, x1.asset = some b → AInv b)
    (h : extraFinish x1 e = .ok x) : XInv x := by
  rw [extraFinish] at h
  split_ifs at h with h1
  obtain ⟨e1, e2, e3, e4, ts, hts, htsInv, hne⟩ := extraChildren_info e.children x1 x h
  have hex : ∃ c ∈ e.children, c.name = "technique" := by
    rw [getChild] at h1
    cases hf : e.children.find? (fun c => c.name == "technique") with
    | none => rw [hf] at h1; simp at h1
    | some c =>
      exact ⟨c, List.mem_of_find?_eq_some hf, by simpa using List.find?_some hf⟩
  rw [XInv_iff]
  refine ⟨?_, ?_, ?_⟩
  · rw [hts]
    intro hcontra
    exact hne hex (List.append_eq_nil.mp hcontra).2
  · rw [hts]
    intro t' ht'
    rcases List.mem_append.mp ht' with hh | hh
    · exact ht t' hh
    · exact htsInv t' hh
  · intro b hb
    rw [e4] at hb
    exact ha b hb

/-- Both parsers establish their invariants: proved by strong induction on
the size of the input. -/
theorem parse_inv (ops : FOps F) : ∀ n : Nat,
    (∀ (cs : List Element) (a0 a : Asset F), sizeOf cs ≤ n → AInv a0 →
      assetChildren ops a0 cs = .ok a → AInv a) ∧
    (∀ (e : Element) (x0 x : Extra F), sizeOf e ≤ n →
      (∀ t ∈ x0.techniques, TInv t) → (∀ b, x0.asset = some b → AInv b) →
      extraParse ops x0 e = .ok x → XInv x) := by
  intro n
  induction n using Nat.strong_induction_on with
  | _ n ih =>
    constructor
    · intro cs a0 a hsz h0 hp
      cases cs with
      | nil => rw [assetChildren] at hp; cases hp; exact h0
      | cons c rest =>
        rw [assetChildren] at hp
        have hlist : sizeOf (c :: rest) = 1 + sizeOf c + sizeOf rest := by simp
        split at hp
        · next a2 hac =>
          have h2 : AInv a2 := by
            refine assetChild_inv ops ?_ h0 hac
            intro y hy
            refine (ih (sizeOf c) (by omega)).2 c Extra.new y le_rfl ?_ ?_ hy
            · intro t htn
              rw [show (Extra.new : Extra F) = .mk none none none none [] from rfl] at htn
              simp at htn
            · intro b hb
              rw [show (Extra.new : Extra F) = .mk none none none none [] from rfl] at hb
              simp at hb
          exact (ih (sizeOf rest) (by omega)).1 rest a2 a le_rfl h2 hp
        · cases hp
        · cases hp
    · intro e x0 x hsz ht ha hp
      simp only [extraParse] at hp
      split at hp
      · next an hgc =>
        split at hp
        · next b hab =>
          have hban : AInv b := by
            rw [assetParse] at hab
            have hsz1 : sizeOf an < n := lt_of_lt_of_le (getChild_sizeOf_lt hgc) hsz
            have hsz2 : sizeOf an.children < sizeOf an := Element.sizeOf_children_lt an
            exact (ih (sizeOf an.children) (by omega)).1 an.children Asset.new b le_rfl
              AInv_new hab
          refine extraFinish_inv ?_ ?_ hp
          · rcases x0 with ⟨i, nn, ty, aa, ts⟩
            simpa using ht
          · rcases x0 with ⟨i, nn, ty, aa, ts⟩
            intro b' hb'
            simp at hb'
            rw [← hb']
            exact hban
        · cases hp
        · cases hp
      · refine extraFinish_inv ?_ ?_ hp
        · rcases x0 with ⟨i, nn, ty, aa, ts⟩
          simpa using ht
        · rcases x0 with ⟨i, nn, ty, aa, ts⟩
          intro b hb
          simp at hb
          exact ha b (by simpa using hb)

/-- A successful `Asset::parse` from a fresh record establishes the asset
invariant. -/
theorem assetParse_inv (ops : FOps F) {e : Element} {a : Asset F}
    (h : assetParse ops Asset.new e = .ok a) : AInv a := by
  rw [assetParse] at h
  exact (parse_inv ops (sizeOf e.children)).1 e.children Asset.new a le_rfl AInv_new h

/-- A successful `Extra::parse` from a fresh record establishes the extra
invariant. -/
theorem extraParse_inv (ops : FOps F) {e : Element} {x : Extra F}
    (h : extraParse ops Extra.new e = .ok x) : XInv x := by
  refine (parse_inv ops (sizeOf e)).2 e Extra.new x le_rfl ?_ ?_ h
  · intro t htn
    rw [show (Extra.new : Extra F) = .mk none none none none [] from rfl] at htn
    simp at htn
  · intro b hb
    rw [show (Extra.new : Extra F) = .mk none none none none [] from rfl] at hb
    simp at hb

end Collada
namespace Collada

variable {F : Type}

/-! ## Re-parsing each kind of encoded child of an asset -/

theorem assetChild_contributor (ops : FOps F) (a : Asset F) (b : Contributor) :
    assetChild ops a (contributorEncode b) = .ok (a.pushContributor b) := by
  rw [assetChild]
  rw [if_pos (show (contributorEncode b).name = "contributor" from rfl)]
  rw [contributorEncode_parse b]

theorem assetChild_coverage (ops : FOps F) (hl : ops.Lawful) (a : Asset F) (l : Location F) :
    assetChild ops a (locationEncode ops l) = .ok (a.setLocation (locNorm ops l)) := by
  have hname : (locationEncode ops l).name = "coverage" := rfl
  rw [assetChild, if_neg (by rw [hname]; decide), if_pos hname,
    locationEncode_parse ops hl l]

theorem assetChild_extra (ops : FOps F) (a : Asset F) (x : Extra F)
    (hx : extraParse ops Extra.new (extraEncode ops x) = .ok (extraNorm ops x)) :
    assetChild ops a (extraEncode ops x) = .ok (a.pushExtra (extraNorm ops x)) := by
  have hname : (extraEncode ops x).name = "extra" := by rw [extraEncode]; rfl
  rw [assetChild, if_neg (by rw [hname]; decide), if_neg (by rw [hname]; decide),
    if_pos hname, hx]

theorem assetChild_unit (ops : FOps F) (hl : ops.Lawful) (a : Asset F) (u : UnitR F) :
    assetChild ops a (unitEncode ops u) = .ok (a.setUnit u) := by
  obtain ⟨hfmt, _⟩ := hl
  rcases u with ⟨n | n, m | m⟩ <;>
    simp [assetChild, unitEncode, optAttr, getAttr, hfmt]

theorem assetChild_created (ops : FOps F) (a : Asset F) (v : String) :
    assetChild ops a (.mk "created" [] [] (some v)) = .ok (a.setCreated v) := by
  simp [assetChild]

theorem assetChild_keywords (ops : FOps F) (a : Asset F) (v : String) :
    assetChild ops a (.mk "keywords" [] [] (some v)) =
      .ok (a.appendKeywords (splitWhitespace v)) := by
  simp [assetChild]

theorem assetChild_modified (ops : FOps F) (a : Asset F) (v : String) :
    assetChild ops a (.mk "modified" [] [] (some v)) = .ok (a.setModified v) := by
  simp [assetChild]

theorem assetChild_revision (ops : FOps F) (a : Asset F) (v : String) :
    assetChild ops a (.mk "revision" [] [] (some v)) = .ok (a.setRevision v) := by
  simp [assetChild]

theorem assetChild_subject (ops : FOps F) (a : Asset F) (v : String) :
    assetChild ops a (.mk "subject" [] [] (some v)) = .ok (a.setSubject v) := by
  simp [assetChild]

theorem assetChild_title (ops : FOps F) (a : Asset F) (v : String) :
    assetChild ops a (.mk "title" [] [] (some v)) = .ok (a.setTitle v) := by
  simp [assetChild]

theorem assetChild_upAxis (ops : FOps F) (a : Asset F) (ax : UpAxis) :
    assetChild ops a (.mk "up_axis" [] [] (some (upAxisFmt ax))) =
      .ok (a.setUpAxis ax) := by
  cases ax <;> simp [assetChild, upAxisFmt]

end Collada
namespace Collada

variable {F : Type}

/-! ## Segment lemmas: whole encoded segments through the child loops -/

theorem assetChildren_contribSeg (ops : FOps F) (bs : List Contributor) (a : Asset F) :
    assetChildren ops a (bs.map contributorEncode) =
      .ok (bs.foldl Asset.pushContributor a) := by
  induction bs generalizing a with
  | nil => simp [assetChildren]
  | cons b rest ih =>
    simp only [List.map_cons, List.foldl_cons]
    rw [assetChildren, assetChild_contributor]
    exact ih (a.pushContributor b)

theorem assetChildren_extraSeg (ops : FOps F) (xs : List (Extra F)) (a : Asset F)
    (hx : ∀ x ∈ xs, extraParse ops Extra.new (extraEncode ops x) = .ok (extraNorm ops x)) :
    assetChildren ops a (xs.map (fun x => extraEncode ops x)) =
      .ok (xs.foldl (fun acc x => acc.pushExtra (extraNorm ops x)) a) := by
  induction xs generalizing a with
  | nil => simp [assetChildren]
  | cons x rest ih =>
    simp only [List.map_cons, List.foldl_cons]
    rw [assetChildren, assetChild_extra ops a x (hx x (List.mem_cons_self x rest))]
    exact ih (a.pushExtra (extraNorm ops x)) (fun y hy => hx y (List.mem_cons_of_mem x hy))

theorem extraChildren_techSeg (ts : List Technique) (x : Extra F)
    (ht : ∀ t ∈ ts, TInv t) :
    extraChildren x (ts.map techniqueEncode) = .ok (ts.foldl Extra.pushTechnique x) := by
  induction ts generalizing x with
  | nil => simp [extraChildren]
  | cons t rest ih =>
    have htt := ht t (List.mem_cons_self t rest)
    simp only [List.map_cons, List.foldl_cons, extraChildren]
    rw [if_pos (show (techniqueEncode t).name = "technique" from htt.1)]
    rw [techniqueEncode_parse htt]
    exact ih (x.pushTechnique t) (fun y hy => ht y (List.mem_cons_of_mem t hy))

/-! ## Evaluating the folds -/

theorem foldl_pushContributor (bs : List Contributor) (cs l cr k m r s ti u ua xs) :
    bs.foldl Asset.pushContributor (Asset.mk (F := F) cs l cr k m r s ti u ua xs) =
      .mk (cs ++ bs) l cr k m r s ti u ua xs := by
  induction bs generalizing cs with
  | nil => simp
  | cons b rest ih => simp [ih]

theorem foldl_pushExtraNorm (ops : FOps F) (es : List (Extra F)) (cs l cr k m r s ti u ua xs) :
    es.foldl (fun acc x => acc.pushExtra (extraNorm ops x))
        (Asset.mk (F := F) cs l cr k m r s ti u ua xs) =
      .mk cs l cr k m r s ti u ua (xs ++ es.map (fun x => extraNorm ops x)) := by
  induction es generalizing xs with
  | nil => simp
  | cons x rest ih => simp [ih]

theorem foldl_pushTechnique (ts : List Technique) (i n ty a ts0) :
    ts.foldl Extra.pushTechnique (Extra.mk (F := F) i n ty a ts0) =
      .mk i n ty a (ts0 ++ ts) := by
  induction ts generalizing ts0 with
  | nil => simp
  | cons t rest ih => simp [ih]

/-! ## The encoded extra node, inspected -/

theorem assetEncode_name (ops : FOps F) (a : Asset F) :
    (assetEncode ops a).name = "asset" := by
  rw [assetEncode]; rfl

theorem techniqueEncode_name {t : Technique} (h : TInv t) :
    (techniqueEncode t).name = "technique" := h.1

theorem extraEncode_attrs (ops : FOps F) (x : Extra F) :
    getAttr (extraEncode ops x) "id" = x.id ∧
      getAttr (extraEncode ops x) "name" = x.name ∧
      getAttr (extraEncode ops x) "type" = x.typ := by
  rcases x with ⟨i | i, n | n, ty | ty, aa, ts⟩ <;>
    simp [extraEncode, getAttr, optAttr]

theorem extraEncode_getChild_asset_some (ops : FOps F) {x : Extra F} {a : Asset F}
    (hx : x.asset = some a) :
    getChild (extraEncode ops x) "asset" = some (assetEncode ops a) := by
  rcases x with ⟨i, n, ty, aa, ts⟩
  simp only [Extra.asset_mk] at hx
  subst hx
  rw [extraEncode, getChild]
  simp only [Element.children_mk]
  show List.find? (fun c => c.name == "asset")
      ([assetEncode ops a] ++ ts.map techniqueEncode) = some (assetEncode ops a)
  simp [List.find?_append, List.find?_cons, assetEncode_name]

theorem extraEncode_getChild_asset_none (ops : FOps F) {x : Extra F}
    (hx : x.asset = none) (ht : ∀ t ∈ x.techniques, TInv t) :
    getChild (extraEncode ops x) "asset" = none := by
  rcases x with ⟨i, n, ty, aa, ts⟩
  simp only [Extra.asset_mk] at hx
  subst hx
  simp only [Extra.techniques_mk] at ht
  rw [extraEncode, getChild]
  simp only [Element.children_mk]
  show List.find? (fun c => c.name == "asset")
      (([] : List Element) ++ ts.map techniqueEncode) = none
  rw [List.find?_eq_none]
  intro c hc
  simp only [List.nil_append] at hc
  obtain ⟨t, htm, rfl⟩ := List.mem_map.mp hc
  simp [techniqueEncode_name (ht t htm)]

theorem extraEncode_getChild_technique (ops : FOps F) {x : Extra F}
    (hne : x.techniques ≠ []) (ht : ∀ t ∈ x.techniques, TInv t) :
    (getChild (extraEncode ops x) "technique").isNone = false := by
  rcases x with ⟨i, n, ty, aa, ts⟩
  simp only [Extra.techniques_mk] at hne ht
  cases ts with
  | nil => exact absurd rfl hne
  | cons t rest =>
    have htt := ht t (List.mem_cons_self t rest)
    rw [extraEncode, getChild]
    simp only [Element.children_mk]
    cases aa with
    | some b =>
      show (List.find? (fun c => c.name == "technique")
          ([assetEncode ops b] ++ (t :: rest).map techniqueEncode)).isNone = false
      simp [List.find?_append, List.find?_cons, assetEncode_name,
        techniqueEncode_name htt]
    | none =>
      show (List.find? (fun c => c.name == "technique")
          (([] : List Element) ++ (t :: rest).map techniqueEncode)).isNone = false
      simp [List.find?_cons, techniqueEncode_name htt]

end Collada
namespace Collada

variable {F : Type}

/-! ## Optional encoded segments of an asset through the child loop -/

theorem assetChildren_locSeg (ops : FOps F) (hl : ops.Lawful) (a : Asset F)
    (l : Option (Location F)) :
    assetChildren ops a
        (match l with
          | some loc => [locationEncode ops loc]
          | none => []) =
      .ok (match l with
        | some loc => a.setLocation (locNorm ops loc)
        | none => a) := by
  cases l with
  | none => simp [assetChildren]
  | some loc => simp [assetChildren, assetChild_coverage ops hl a loc]

theorem assetChildren_createdSeg (ops : FOps F) (a : Asset F) (v : String) :
    assetChildren ops a [.mk "created" [] [] (some v)] = .ok (a.setCreated v) := by
  simp [assetChildren, assetChild_created]

theorem assetChildren_keywordsSeg (ops : FOps F) (a : Asset F) (v : String) :
    assetChildren ops a [.mk "keywords" [] [] (some v)] =
      .ok (a.appendKeywords (splitWhitespace v)) := by
  simp [assetChildren, assetChild_keywords]

theorem assetChildren_modifiedSeg (ops : FOps F) (a : Asset F) (v : String) :
    assetChildren ops a [.mk "modified" [] [] (some v)] = .ok (a.setModified v) := by
  simp [assetChildren, assetChild_modified]

theorem assetChildren_revisionSeg (ops : FOps F) (a : Asset F) (r : Option String) :
    assetChildren ops a (optTextChild "revision" r) =
      .ok (match r with
        | some v => a.setRevision v
        | none => a) := by
  cases r <;> simp [assetChildren, optTextChild, assetChild_revision]

theorem assetChildren_subjectSeg (ops : FOps F) (a : Asset F) (r : Option String) :
    assetChildren ops a (optTextChild "subject" r) =
      .ok (match r with
        | some v => a.setSubject v
        | none => a) := by
  cases r <;> simp [assetChildren, optTextChild, assetChild_subject]

theorem assetChildren_titleSeg (ops : FOps F) (a : Asset F) (r : Option String) :
    assetChildren ops a (optTextChild "title" r) =
      .ok (match r with
        | some v => a.setTitle v
        | none => a) := by
  cases r <;> simp [assetChildren, optTextChild, assetChild_title]

theorem assetChildren_unitSeg (ops : FOps F) (hl : ops.Lawful) (a : Asset F)
    (u : Option (UnitR F)) :
    assetChildren ops a
        (match u with
          | some un => [unitEncode ops un]
          | none => []) =
      .ok (match u with
        | some un => a.setUnit un
        | none => a) := by
  cases u with
  | none => simp [assetChildren]
  | some un => simp [assetChildren, assetChild_unit ops hl a un]

theorem assetChildren_upAxisSeg (ops : FOps F) (a : Asset F) (ua : Option UpAxis) :
    assetChildren ops a
        (match ua with
          | some ax => [.mk "up_axis" [] [] (some (upAxisFmt ax))]
          | none => []) =
      .ok (match ua with
        | some ax => a.setUpAxis ax
        | none => a) := by
  cases ua with
  | none => simp [assetChildren]
  | some ax => simp [assetChildren, assetChild_upAxis]

/-- The `Extra::parse` child loop skips a child tagged `asset`. -/
theorem extraChildren_asset_cons {e : Element} (he : e.name = "asset")
    (x : Extra F) (rest : List Element) :
    extraChildren x (e :: rest) = extraChildren x rest := by
  rw [extraChildren, if_neg (by rw [he]; decide), if_pos he]

end Collada
namespace Collada

variable {F : Type}

theorem extraEncode_children_some (ops : FOps F) {x : Extra F} {b : Asset F}
    (hx : x.asset = some b) :
    (extraEncode ops x).children =
      assetEncode ops b :: x.techniques.map techniqueEncode := by
  rcases x with ⟨i, n, ty, aa, ts⟩
  simp only [Extra.asset_mk] at hx
  subst hx
  rw [extraEncode]
  rfl

theorem extraEncode_children_none (ops : FOps F) {x : Extra F}
    (hx : x.asset = none) :
    (extraEncode ops x).children = x.techniques.map techniqueEncode := by
  rcases x with ⟨i, n, ty, aa, ts⟩
  simp only [Extra.asset_mk] at hx
  subst hx
  rw [extraEncode]
  rfl

end Collada
namespace Collada

variable {F : Type}

/-- The round trip, proved for both records at once by strong induction on
the record size: re-parsing the encoding of an invariant-satisfying record
from a fresh default instance succeeds and yields the normalized record
(identical except for the integer-truncated altitudes). -/
theorem encode_parse_aux (ops : FOps F) (hl : ops.Lawful) : ∀ n : Nat,
    (∀ a : Asset F, sizeOf a ≤ n → AInv a →
      assetParse ops Asset.new (assetEncode ops a) = .ok (assetNorm ops a)) ∧
    (∀ x : Extra F, sizeOf x ≤ n → XInv x →
      extraParse ops Extra.new (extraEncode ops x) = .ok (extraNorm ops x)) := by
  intro n
  induction n using Nat.strong_induction_on with
  | _ n ih =>
    constructor
    · intro a hsz hinv
      rcases a with ⟨cs, l, cr, k, m, r, s, ti, u, ua, xs⟩
      rw [AInv_iff] at hinv
      simp only [Asset.keywords_mk, Asset.extras_mk] at hinv
      obtain ⟨hkw, hxs⟩ := hinv
      have hxRT : ∀ x ∈ xs,
          extraParse ops Extra.new (extraEncode ops x) = .ok (extraNorm ops x) := by
        intro x hx
        have h1 : sizeOf x < sizeOf (Asset.mk (F := F) cs l cr k m r s ti u ua xs) := by
          have h2 := List.sizeOf_lt_of_mem hx
          simp [Asset.mk.sizeOf_spec]
          omega
        exact (ih (sizeOf x) (by omega)).2 x le_rfl (hxs x hx)
      rw [assetParse, assetEncode]
      simp only [Element.children_mk, Asset.contributors_mk, Asset.location_mk,
        Asset.created_mk, Asset.keywords_mk, Asset.modified_mk, Asset.revision_mk,
        Asset.subject_mk, Asset.title_mk, Asset.unit_mk, Asset.up_axis_mk,
        Asset.extras_mk, List.attach_map_coe, List.attach_map_val]
      rw [show (Asset.new : Asset F) = .mk [] none "" [] "" none none none none none []
        from rfl]
      simp only [List.append_assoc]
      rw [assetChildren_append, assetChildren_contribSeg, foldl_pushContributor]
      simp only [PRes.bind_ok, List.nil_append]
      rw [assetChildren_append, assetChildren_locSeg ops hl]
      simp only [PRes.bind_ok]
      rw [assetChildren_append, assetChildren_createdSeg]
      simp only [PRes.bind_ok]
      rw [assetChildren_append, assetChildren_keywordsSeg]
      simp only [PRes.bind_ok]
      rw [splitWhitespace_kwJoin k hkw]
      rw [assetChildren_append, assetChildren_modifiedSeg]
      simp only [PRes.bind_ok]
      rw [assetChildren_append, assetChildren_revisionSeg]
      simp only [PRes.bind_ok]
      rw [assetChildren_append, assetChildren_subjectSeg]
      simp only [PRes.bind_ok]
      rw [assetChildren_append, assetChildren_titleSeg]
      simp only [PRes.bind_ok]
      rw [assetChildren_append, assetChildren_unitSeg ops hl]
      simp only [PRes.bind_ok]
      rw [assetChildren_append, assetChildren_upAxisSeg]
      simp only [PRes.bind_ok]
      rw [assetChildren_extraSeg ops xs _ hxRT]
      rw [assetNorm]
      simp only [Asset.contributors_mk, Asset.location_mk, Asset.created_mk,
        Asset.keywords_mk, Asset.modified_mk, Asset.revision_mk, Asset.subject_mk,
        Asset.title_mk, Asset.unit_mk, Asset.up_axis_mk, Asset.extras_mk,
        List.attach_map_coe, List.attach_map_val]
      rcases l with _ | loc <;> rcases r with _ | rv <;> rcases s with _ | sv <;>
        rcases ti with _ | tv <;> rcases u with _ | uv <;> rcases ua with _ | av <;>
        simp [foldl_pushExtraNorm]
    · intro x hsz hinv
      rcases x with ⟨i, nm, ty, aa, ts⟩
      rw [XInv_iff] at hinv
      simp only [Extra.techniques_mk, Extra.asset_mk] at hinv
      obtain ⟨hne, htv, hav⟩ := hinv
      obtain ⟨hid, hnm2, hty⟩ := extraEncode_attrs ops (Extra.mk (F := F) i nm ty aa ts)
      simp only [Extra.id_mk, Extra.name_mk, Extra.typ_mk] at hid hnm2 hty
      simp only [extraParse]
      rw [hid, hnm2, hty]
      rw [show (Extra.new : Extra F) = .mk none none none none [] from rfl]
      simp only [Extra.setId_mk, Extra.setName_mk, Extra.setTyp_mk]
      cases aa with
      | some b =>
        have hbrt : assetParse ops Asset.new (assetEncode ops b) = .ok (assetNorm ops b) := by
          have h1 : sizeOf b < sizeOf (Extra.mk (F := F) i nm ty (some b) ts) := by
            simp [Extra.mk.sizeOf_spec]
            omega
          exact (ih (sizeOf b) (by omega)).1 b le_rfl (hav b rfl)
        split
        · next an hgc =>
          rw [extraEncode_getChild_asset_some ops
            (show (Extra.mk (F := F) i nm ty (some b) ts).asset = some b from rfl)] at hgc
          cases hgc
          rw [hbrt]
          show extraFinish ((Extra.mk (F := F) i nm ty none []).setAsset (assetNorm ops b))
              (extraEncode ops (.mk i nm ty (some b) ts)) =
            .ok (extraNorm ops (.mk i nm ty (some b) ts))
          rw [extraFinish]
          rw [extraEncode_getChild_technique ops (by simpa using hne) (by simpa using htv)]
          simp only [Bool.false_eq_true, if_false]
          rw [extraEncode_children_some ops
            (show (Extra.mk (F := F) i nm ty (some b) ts).asset = some b from rfl)]
          rw [extraChildren_asset_cons (assetEncode_name ops b)]
          simp only [Extra.techniques_mk, Extra.setAsset_mk]
          rw [extraChildren_techSeg ts _ (by simpa using htv)]
          rw [foldl_pushTechnique]
          rw [extraNorm]
          simp
        · next hgc =>
          rw [extraEncode_getChild_asset_some ops
            (show (Extra.mk (F := F) i nm ty (some b) ts).asset = some b from rfl)] at hgc
          cases hgc
      | none =>
        split
        · next an hgc =>
          rw [extraEncode_getChild_asset_none ops
            (show (Extra.mk (F := F) i nm ty none ts).asset = none from rfl)
            (by simpa using htv)] at hgc
          cases hgc
        · next hgc =>
          rw [extraFinish]
          rw [extraEncode_getChild_technique ops (by simpa using hne) (by simpa using htv)]
          simp only [Bool.false_eq_true, if_false]
          rw [extraEncode_children_none ops
            (show (Extra.mk (F := F) i nm ty none ts).asset = none from rfl)]
          simp only [Extra.techniques_mk]
          rw [extraChildren_techSeg ts _ (by simpa using htv)]
          rw [foldl_pushTechnique]
          rw [extraNorm]
          simp

end Collada
namespace Collada

/-! ## A concrete float model for witnesses

`trivOps` is a degenerate but lawful instance of the abstract `f32`
operations, used to instantiate the parametric theorems at concrete
inputs: the only representable float is `()` rendered as `"0"`. -/

/-- A concrete lawful instance of the float operations. -/
def trivOps : FOps Unit where
  parseF := fun s => if s = "0" then some () else none
  fmt := fun _ => "0"
  trunc := fun _ => 0
  ofInt := fun _ => ()
  one := ()
  zero := ()

theorem trivOps_lawful : trivOps.Lawful := by
  constructor
  · intro x
    simp [trivOps]
  · intro x
    show trivOps.parseF (toString (0 : Int)) = some ()
    rw [show toString (0 : Int) = "0" from rfl]
    simp [trivOps]

/-! ## C1: the parse/encode round trip -/

/-- C1: for every record successfully produced by `parse(node)` for any of
the five `XmlConversion` implementations, re-parsing the encoded tree on a
fresh default instance succeeds and yields the record unchanged except for
the lossy-by-design transforms: the altitude is truncated to an integer
(`locNorm`/`assetNorm`/`extraNorm` change nothing but altitudes — the
final two conjuncts — and in particular the keyword list itself survives
unchanged, whitespace normalization affecting only the wire text). -/
theorem c1_round_trip (F : Type) (ops : FOps F) (hops : ops.Lawful) :
    (∀ (e : Element) (c : Contributor), contributorParse Contributor.new e = .ok c →
      contributorParse Contributor.new (contributorEncode c) = .ok c) ∧
    (∀ (e : Element) (t : Technique), techniqueParse Technique.new e = .ok t →
      techniqueParse Technique.new (techniqueEncode t) = .ok t) ∧
    (∀ (e : Element) (l : Location F), locationParse ops (Location.new ops) e = .ok l →
      locationParse ops (Location.new ops) (locationEncode ops l) = .ok (locNorm ops l)) ∧
    (∀ (e : Element) (x : Extra F), extraParse ops Extra.new e = .ok x →
      extraParse ops Extra.new (extraEncode ops x) = .ok (extraNorm ops x)) ∧
    (∀ (e : Element) (a : Asset F), assetParse ops Asset.new e = .ok a →
      assetParse ops Asset.new (assetEncode ops a) = .ok (assetNorm ops a)) ∧
    (∀ l : Location F, (locNorm ops l).longitude = l.longitude ∧
      (locNorm ops l).latitude = l.latitude ∧ (locNorm ops l).mode = l.mode ∧
      (locNorm ops l).altitude = ops.ofInt (ops.trunc l.altitude)) ∧
    (∀ a : Asset F, (assetNorm ops a).contributors = a.contributors ∧
      (assetNorm ops a).created = a.created ∧
      (assetNorm ops a).keywords = a.keywords ∧
      (assetNorm ops a).modified = a.modified ∧
      (assetNorm ops a).revision = a.revision ∧
      (assetNorm ops a).subject = a.subject ∧
      (assetNorm ops a).title = a.title ∧
      (assetNorm ops a).unit = a.unit ∧
      (assetNorm ops a).up_axis = a.up_axis) := by
  refine ⟨fun e c _ => contributorEncode_parse c,
    fun e t ht => techniqueEncode_parse (techniqueParse_inv rfl ht),
    fun e l _ => locationEncode_parse ops hops l,
    fun e x hx => (encode_parse_aux ops hops (sizeOf x)).2 x le_rfl (extraParse_inv ops hx),
    fun e a ha => (encode_parse_aux ops hops (sizeOf a)).1 a le_rfl (assetParse_inv ops ha),
    fun l => ⟨rfl, rfl, rfl, rfl⟩,
    fun a => ?_⟩
  rcases a with ⟨cs, l, cr, k, m, r, s, ti, u, ua, xs⟩
  rw [assetNorm]
  simp

/-- Witness for C1: the location component applied to the concrete
scenario-B-shaped node under the concrete float model. -/
theorem c1_round_trip_witness :
    locationParse trivOps (Location.new trivOps)
        (locationEncode trivOps ⟨(), (), (), .Absolute⟩) =
      .ok (locNorm trivOps ⟨(), (), (), .Absolute⟩) :=
  (c1_round_trip Unit trivOps trivOps_lawful).2.2.1
    (.mk "coverage" []
      [.mk "geographic_location" []
        [.mk "longitude" [] [] (some "0"),
          .mk "latitude" [] [] (some "0"),
          .mk "altitude" [("mode", "absolute")] [] (some "0")] none] none)
    ⟨(), (), (), .Absolute⟩
    (by simp [locationParse, locationGeoChildren, Location.new, trivOps, getAttr])

end Collada
namespace Collada

/-! ## C2: the structural check of Location::parse -/

/-- C2 counterexample: a `coverage` node whose single child is *not* named
`geographic_location` is accepted anyway (the short-circuiting `&&` in the
source never fires for single-child nodes), refuting the claim that only
a node with exactly one `geographic_location` child can parse. -/
theorem c2_counterexample :
    locationParse trivOps (Location.new trivOps)
        (.mk "coverage" []
          [.mk "wrong_name" []
            [.mk "longitude" [] [] (some "0"),
              .mk "latitude" [] [] (some "0"),
              .mk "altitude" [("mode", "absolute")] [] (some "0")] none] none) =
      .ok ⟨(), (), (), .Absolute⟩ ∧ "wrong_name" ≠ "geographic_location" := by
  constructor
  · simp [locationParse, locationGeoChildren, Location.new, trivOps, getAttr]
  · decide

/-- C2 amended: `Location::parse` checks the container tag; with an empty
child list it crashes (out-of-bounds index) instead of failing; it rejects
with the missing-element kind only when the child count differs from one
AND the first child is not named `geographic_location`; whenever it
returns `Ok` the container tag was `coverage`, there was at least one
child, the child count was one or the first child was named
`geographic_location`, and the first child (whatever its name) had exactly
three children. -/
theorem c2_amended (F : Type) (ops : FOps F) :
    (∀ (l : Location F) (attrs : List (String × String)) (t : Option String),
      locationParse ops l (.mk "coverage" attrs [] t) = .crash) ∧
    (∀ (l : Location F) (e : Element) (c0 : Element) (rest : List Element),
      e.children = c0 :: rest →
      e.name = "coverage" → e.children.length ≠ 1 → c0.name ≠ "geographic_location" →
      locationParse ops l e = .err (.MissingElement "location" "geographic_location")) ∧
    (∀ (l l' : Location F) (e : Element), locationParse ops l e = .ok l' →
      e.name = "coverage" ∧ e.children ≠ [] ∧
      (e.children.length = 1 ∨
        (e.children.head?.map Element.name) = some "geographic_location") ∧
      ∃ g, e.children.head? = some g ∧ g.children.length = 3) := by
  refine ⟨?_, ?_, ?_⟩
  · intro l attrs t
    rw [locationParse]
    simp
  · intro l e c0 rest hc hname hlen hgeo
    rw [locationParse, if_neg (by simp [hname]), hc]
    rw [hc] at hlen
    show (if (c0 :: rest).length ≠ 1 ∧ c0.name ≠ "geographic_location" then
        (PRes.err (ColladaError.MissingElement "location" "geographic_location")
          : PRes (Location F))
      else if c0.children.length ≠ 3 then .err (.Invalid geoArityMsg)
      else locationGeoChildren ops l c0.children) = _
    rw [if_pos ⟨hlen, hgeo⟩]
  · intro l l' e h
    rw [locationParse] at h
    split_ifs at h with h1
    push_neg at h1
    refine ⟨h1, ?_⟩
    split at h
    · cases h
    · next c0 rest hc =>
      split_ifs at h with h2 h3
      push_neg at h2
      rw [hc]
      refine ⟨by simp, ?_, c0, by simp, by omega⟩
      by_cases hlen : (c0 :: rest).length = 1
      · exact Or.inl hlen
      · exact Or.inr (by simp [h2 hlen])

/-- Witness for C2's amended theorem: the crash on an empty `coverage`
node and the missing-element rejection, at concrete inputs. -/
theorem c2_amended_witness :
    locationParse trivOps (Location.new trivOps) (.mk "coverage" [] [] none) = .crash ∧
    locationParse trivOps (Location.new trivOps)
        (.mk "coverage" [] [.mk "a" [] [] none, .mk "b" [] [] none] none) =
      .err (.MissingElement "location" "geographic_location") :=
  ⟨(c2_amended Unit trivOps).1 (Location.new trivOps) [] none,
    (c2_amended Unit trivOps).2.1 (Location.new trivOps) _ (.mk "a" [] [] none)
      [.mk "b" [] [] none] rfl rfl (by decide) (by decide)⟩

/-! ## C3: malformed numeric values crash instead of returning an error -/

/-- C3: at the failing inputs (a malformed `meter` attribute; a malformed
`longitude` text) the code panics — modelled as `crash` — via
`.parse::<f32>().unwrap()`, instead of returning the generic parse
failure whose plumbing (`From<ParseFloatError> for ColladaError`) exists
unused in src/error.rs. -/
theorem c3_code_bug_crashes :
    assetParse trivOps Asset.new
        (.mk "asset" [] [.mk "unit" [("meter", "abc")] [] none] none) = .crash ∧
    locationParse trivOps (Location.new trivOps)
        (.mk "coverage" []
          [.mk "geographic_location" []
            [.mk "longitude" [] [] (some "abc"),
              .mk "latitude" [] [] (some "0"),
              .mk "altitude" [("mode", "absolute")] [] (some "0")] none] none) =
      .crash := by
  constructor
  · simp [assetParse, assetChildren, assetChild, getAttr, trivOps]
  · simp [locationParse, locationGeoChildren, getAttr, trivOps]

end Collada
namespace Collada

variable {F : Type}

/-! ## C4: empty versus absent text -/

/-- C4 counterexample: a contributor child with *present but empty* text is
accepted and stored, refuting the claim that parse returns `Ok` only when
every recognized text child has non-empty text. -/
theorem c4_counterexample :
    contributorParse Contributor.new
        (.mk "contributor" [] [.mk "author" [] [] (some "")] none) =
      .ok ⟨some "", none, none, none, none, none, none⟩ := by
  simp [contributorParse, contributorChildren, Contributor.new]

/-- The `Contributor::parse` loop fails with `MissingData` at the first
child with absent text, after any prefix of recognized children with
present text. -/
theorem contributorChildren_missingData :
    ∀ (gs : List Element) (b : Contributor) (c : Element) (rest : List Element),
      (∀ g ∈ gs, g.text ≠ none ∧ g.name ∈ (["author", "author_email", "author_website",
        "authoring_tool", "comments", "copyright", "source_data"] : List String)) →
      c.text = none →
      contributorChildren b (gs ++ c :: rest) = .err (.MissingData c.name) := by
  intro gs
  induction gs with
  | nil =>
    intro b c rest _ htc
    simp only [List.nil_append, contributorChildren, htc]
  | cons g gs ih =>
    intro b c rest hg htc
    obtain ⟨htg, hnm⟩ := hg g (List.mem_cons_self g gs)
    have htail : ∀ g' ∈ gs, g'.text ≠ none ∧ g'.name ∈ (["author", "author_email",
        "author_website", "authoring_tool", "comments", "copyright",
        "source_data"] : List String) :=
      fun g' hg' => hg g' (List.mem_cons_of_mem g hg')
    cases htg' : g.text with
    | none => exact absurd htg' htg
    | some tg =>
      simp only [List.cons_append, contributorChildren, htg']
      simp only [List.mem_cons, List.mem_singleton, List.not_mem_nil, or_false] at hnm
      rcases hnm with h | h | h | h | h | h | h <;> simp only [h] <;>
        simp <;> exact ih _ c rest htail htc

/-- If the `Contributor::parse` loop succeeds, every child had present
text. -/
theorem contributorChildren_ok_text :
    ∀ (cs : List Element) (b b' : Contributor), contributorChildren b cs = .ok b' →
      ∀ c ∈ cs, c.text ≠ none := by
  intro cs
  induction cs with
  | nil => intro b b' _ c hc; cases hc
  | cons c0 rest ih =>
    intro b b' h c hc
    rw [contributorChildren] at h
    cases htx : c0.text with
    | none => rw [htx] at h; cases h
    | some t =>
      rw [htx] at h
      rcases List.mem_cons.mp hc with rfl | hc'
      · simp [htx]
      · split_ifs at h <;> exact ih _ _ h c hc'

/-- One `Asset::parse` loop iteration on a child outside the four nested
tags with absent text fails with `MissingData` naming the child. -/
theorem assetChild_missingData (ops : FOps F) (a : Asset F) (c : Element)
    (hnm : c.name ∉ (["contributor", "coverage", "extra", "unit"] : List String))
    (htc : c.text = none) : assetChild ops a c = .err (.MissingData c.name) := by
  simp only [List.mem_cons, List.mem_singleton, List.not_mem_nil, or_false,
    not_or] at hnm
  obtain ⟨h1, h2, h3, h4⟩ := hnm
  rw [assetChild, if_neg h1, if_neg h2, if_neg h3, if_neg h4, htc]

/-- If the `Asset::parse` loop succeeds, every child outside the four
nested tags had present text. -/
theorem assetChildren_ok_text (ops : FOps F) :
    ∀ (cs : List Element) (a a' : Asset F), assetChildren ops a cs = .ok a' →
      ∀ c ∈ cs, c.name ∉ (["contributor", "coverage", "extra", "unit"] : List String) →
        c.text ≠ none := by
  intro cs
  induction cs with
  | nil => intro a a' _ c hc; cases hc
  | cons c0 rest ih =>
    intro a a' h c hc hnm
    rw [assetChildren] at h
    split at h
    · next a2 hac =>
      rcases List.mem_cons.mp hc with rfl | hc'
      · intro htc
        rw [assetChild_missingData ops a c hnm htc] at hac
        cases hac
      · exact ih _ _ h c hc' hnm
    · cases h
    · cases h

/-- C4 amended: only *absent* text is rejected — with the missing-data
kind naming the offending child — while present-but-empty text is
accepted; a successful parse guarantees that every contributor child, and
every asset child outside the four nested tags, had present (possibly
empty) text. -/
theorem c4_amended (F : Type) (ops : FOps F) :
    (∀ (b : Contributor) (attrs : List (String × String)) (t : Option String)
        (gs : List Element) (c : Element) (rest : List Element),
      (∀ g ∈ gs, g.text ≠ none ∧ g.name ∈ (["author", "author_email", "author_website",
        "authoring_tool", "comments", "copyright", "source_data"] : List String)) →
      c.text = none →
      contributorParse b (.mk "contributor" attrs (gs ++ c :: rest) t) =
        .err (.MissingData c.name)) ∧
    (∀ (b b' : Contributor) (e : Element), contributorParse b e = .ok b' →
      ∀ c ∈ e.children, c.text ≠ none) ∧
    (∀ (a : Asset F) (c : Element),
      c.name ∉ (["contributor", "coverage", "extra", "unit"] : List String) →
      c.text = none → assetChild ops a c = .err (.MissingData c.name)) ∧
    (∀ (a a' : Asset F) (e : Element), assetParse ops a e = .ok a' →
      ∀ c ∈ e.children,
        c.name ∉ (["contributor", "coverage", "extra", "unit"] : List String) →
        c.text ≠ none) := by
  refine ⟨?_, ?_, ?_, ?_⟩
  · intro b attrs t gs c rest hg htc
    rw [contributorParse, if_neg (by simp)]
    exact contributorChildren_missingData gs b c rest hg htc
  · intro b b' e h
    rw [contributorParse] at h
    split_ifs at h
    exact contributorChildren_ok_text e.children b b' h
  · exact fun a c hnm htc => assetChild_missingData ops a c hnm htc
  · intro a a' e h
    rw [assetParse] at h
    exact assetChildren_ok_text ops e.children a a' h

/-- Witness for C4's amended theorem at concrete inputs. -/
theorem c4_amended_witness :
    contributorParse Contributor.new
        (.mk "contributor" []
          [.mk "author" [] [] (some "Bob"), .mk "comments" [] [] none] none) =
      .err (.MissingData "comments") ∧
    assetChild trivOps Asset.new (.mk "created" [] [] none) =
      .err (.MissingData "created") :=
  ⟨(c4_amended Unit trivOps).1 Contributor.new [] none
      [.mk "author" [] [] (some "Bob")] (.mk "comments" [] [] none) []
      (by simp) rfl,
    (c4_amended Unit trivOps).2.2.1 Asset.new (.mk "created" [] [] none)
      (by simp) rfl⟩

end Collada
namespace Collada

variable {F : Type}

/-! ## C5: which fields are actually mandatory -/

/-- C5 counterexample: an asset node with only a `modified` child — i.e.
with the allegedly mandatory `created` child removed — parses `Ok`;
`Asset::parse` never enforces `created` or `modified`. -/
theorem c5_counterexample :
    assetParse trivOps Asset.new
        (.mk "asset" [] [.mk "modified" [] [] (some "2008-01-28")] none) =
      .ok (.mk [] none "" [] "2008-01-28" none none none none none []) := by
  simp [assetParse, assetChildren, assetChild,
    show (Asset.new : Asset Unit) = .mk [] none "" [] "" none none none none none []
      from rfl]

/-- C5 amended: the genuinely mandatory items fail with the kind naming
exactly that field — technique's `profile` attribute (missing-attribute),
extra's `technique` child (missing-element), altitude's `mode` attribute
(missing-attribute) — while asset's `created` and `modified` children are
not enforced at all: a childless asset node parses `Ok` unchanged. -/
theorem c5_amended (F : Type) (ops : FOps F) :
    (∀ (t0 : Technique) (e : Element), e.name = "technique" →
      getAttr e "profile" = none →
      techniqueParse t0 e = .err (.MissingAttr "technique" "profile")) ∧
    (∀ (x : Extra F) (e : Element), getChild e "asset" = none →
      getChild e "technique" = none →
      extraParse ops x e = .err (.MissingElement "extra" "technique")) ∧
    (∀ (l : Location F) (c : Element) (rest : List Element) (t : String) (v : F),
      c.name = "altitude" → c.text = some t → ops.parseF t = some v →
      getAttr c "mode" = none →
      locationGeoChildren ops l (c :: rest) = .err (.MissingAttr "altitude" "mode")) ∧
    (∀ (a : Asset F) (attrs : List (String × String)) (n : String) (t : Option String),
      assetParse ops a (.mk n attrs [] t) = .ok a) := by
  refine ⟨?_, ?_, ?_, ?_⟩
  · intro t0 e hname hprof
    rw [techniqueParse, if_neg (by simp [hname]), hprof]
  · intro x e hasset htech
    simp only [extraParse]
    split
    · next an hgc => rw [hasset] at hgc; cases hgc
    · rw [extraFinish, htech]
      simp
  · intro l c rest t v hname htext hparse hmode
    rw [locationGeoChildren, htext]
    show (if c.name = "longitude" then _ else _) = _
    rw [if_neg (by simp [hname]), if_neg (by simp [hname]), if_pos hname, hparse, hmode]
  · intro a attrs n t
    rw [assetParse]
    simp [assetChildren]

/-- Witness for C5's amended theorem at concrete inputs. -/
theorem c5_amended_witness :
    techniqueParse Technique.new (.mk "technique" [] [] none) =
      .err (.MissingAttr "technique" "profile") ∧
    extraParse trivOps Extra.new (.mk "extra" [] [] none) =
      .err (.MissingElement "extra" "technique") ∧
    locationGeoChildren trivOps (Location.new trivOps)
        [.mk "altitude" [] [] (some "0")] = .err (.MissingAttr "altitude" "mode") ∧
    assetParse trivOps Asset.new (.mk "asset" [] [] none) = .ok Asset.new :=
  ⟨(c5_amended Unit trivOps).1 Technique.new (.mk "technique" [] [] none) rfl rfl,
    (c5_amended Unit trivOps).2.1 Extra.new (.mk "extra" [] [] none) rfl rfl,
    (c5_amended Unit trivOps).2.2.1 (Location.new trivOps)
      (.mk "altitude" [] [] (some "0")) [] "0" () rfl rfl (by simp [trivOps]) rfl,
    (c5_amended Unit trivOps).2.2.2 Asset.new [] "asset" none⟩

end Collada
namespace Collada

variable {F : Type}

/-! ## C6: what an unrecognized child actually triggers -/

/-- C6 counterexample: injecting a *textless* unknown child `<foo/>` into
an otherwise-valid contributor fails with the missing-data kind, not the
claimed invalid-child kind carrying the two tags. -/
theorem c6_counterexample :
    contributorParse Contributor.new
        (.mk "contributor" [] [.mk "foo" [] [] none] none) =
      .err (.MissingData "foo") ∧
    ∀ child parent : String, ColladaError.MissingData "foo" ≠ .InvalidChild child parent := by
  constructor
  · simp [contributorParse, contributorChildren]
  · intro child parent h
    cases h

/-- C6 amended: the invalid-child failure carrying exactly the injected
tag and the container tag is raised for any unknown child of an extra,
and for text-bearing unknown children of an asset, a contributor, or a
geographic-location node (textless unknown children of the latter three
fail earlier with missing-data); appending a fourth child to a
geographic-location node instead fails the arity check with the generic
`Invalid` kind before any tag is inspected. -/
theorem c6_amended (F : Type) (ops : FOps F) :
    (∀ (x : Extra F) (bad : Element) (rest : List Element),
      bad.name ≠ "technique" → bad.name ≠ "asset" →
      extraChildren x (bad :: rest) = .err (.InvalidChild bad.name "extra")) ∧
    (∀ (a : Asset F) (bad : Element) (s : String),
      bad.name ∉ (["contributor", "coverage", "extra", "unit", "created", "keywords",
        "modified", "revision", "subject", "title", "up_axis"] : List String) →
      bad.text = some s →
      assetChild ops a bad = .err (.InvalidChild bad.name "asset")) ∧
    (∀ (b : Contributor) (bad : Element) (rest : List Element) (s : String),
      bad.name ∉ (["author", "author_email", "author_website", "authoring_tool",
        "comments", "copyright", "source_data"] : List String) →
      bad.text = some s →
      contributorChildren b (bad :: rest) = .err (.InvalidChild bad.name "contributor")) ∧
    (∀ (l : Location F) (bad : Element) (rest : List Element) (s : String),
      bad.name ∉ (["longitude", "latitude", "altitude"] : List String) →
      bad.text = some s →
      locationGeoChildren ops l (bad :: rest) =
        .err (.InvalidChild bad.name "geographic_location")) ∧
    (∀ (l : Location F) (attrs gattrs : List (String × String)) (t gt : Option String)
        (gname : String) (c1 c2 c3 c4 : Element),
      locationParse ops l
          (.mk "coverage" attrs [.mk gname gattrs [c1, c2, c3, c4] gt] t) =
        .err (.Invalid geoArityMsg)) := by
  refine ⟨?_, ?_, ?_, ?_, ?_⟩
  · intro x bad rest h1 h2
    rw [extraChildren, if_neg h1, if_neg h2]
  · intro a bad s hnm hts
    simp only [List.mem_cons, List.mem_singleton, List.not_mem_nil, or_false,
      not_or] at hnm
    obtain ⟨n1, n2, n3, n4, n5, n6, n7, n8, n9, n10, n11⟩ := hnm
    rw [assetChild, if_neg n1, if_neg n2, if_neg n3, if_neg n4, hts]
    show (if bad.name = "created" then _ else _) = _
    rw [if_neg n5, if_neg n6, if_neg n7, if_neg n8, if_neg n9, if_neg n10, if_neg n11]
  · intro b bad rest s hnm hts
    simp only [List.mem_cons, List.mem_singleton, List.not_mem_nil, or_false,
      not_or] at hnm
    obtain ⟨n1, n2, n3, n4, n5, n6, n7⟩ := hnm
    rw [contributorChildren, hts]
    show (if bad.name = "author" then _ else _) = _
    rw [if_neg n1, if_neg n2, if_neg n3, if_neg n4, if_neg n5, if_neg n6, if_neg n7]
  · intro l bad rest s hnm hts
    simp only [List.mem_cons, List.mem_singleton, List.not_mem_nil, or_false,
      not_or] at hnm
    obtain ⟨n1, n2, n3⟩ := hnm
    rw [locationGeoChildren, hts]
    show (if bad.name = "longitude" then _ else _) = _
    rw [if_neg n1, if_neg n2, if_neg n3]
  · intro l attrs gattrs t gt gname c1 c2 c3 c4
    rw [locationParse, if_neg (by simp)]
    show (if ([Element.mk gname gattrs [c1, c2, c3, c4] gt] : List Element).length ≠ 1 ∧
        (Element.mk gname gattrs [c1, c2, c3, c4] gt).name ≠ "geographic_location" then
        (PRes.err (ColladaError.MissingElement "location" "geographic_location")
          : PRes (Location F))
      else if (Element.mk gname gattrs [c1, c2, c3, c4] gt).children.length ≠ 3 then
        .err (.Invalid geoArityMsg)
      else locationGeoChildren ops l (Element.mk gname gattrs [c1, c2, c3, c4] gt).children)
      = _
    rw [if_neg (by simp), if_pos (by simp)]

/-- Witness for C6's amended theorem at concrete inputs. -/
theorem c6_amended_witness :
    extraChildren (Extra.new : Extra Unit) [.mk "bogus" [] [] none] =
      .err (.InvalidChild "bogus" "extra") ∧
    assetChild trivOps Asset.new (.mk "bogus" [] [] (some "x")) =
      .err (.InvalidChild "bogus" "asset") ∧
    contributorChildren Contributor.new [.mk "bogus" [] [] (some "x")] =
      .err (.InvalidChild "bogus" "contributor") ∧
    locationGeoChildren trivOps (Location.new trivOps) [.mk "bogus" [] [] (some "x")] =
      .err (.InvalidChild "bogus" "geographic_location") :=
  ⟨(c6_amended Unit trivOps).1 Extra.new (.mk "bogus" [] [] none) [] (by decide) (by decide),
    (c6_amended Unit trivOps).2.1 Asset.new (.mk "bogus" [] [] (some "x")) "x"
      (by simp) rfl,
    (c6_amended Unit trivOps).2.2.1 Contributor.new (.mk "bogus" [] [] (some "x")) [] "x"
      (by simp) rfl,
    (c6_amended Unit trivOps).2.2.2.1 (Location.new trivOps) (.mk "bogus" [] [] (some "x"))
      [] "x" (by simp) rfl⟩

end Collada
namespace Collada

variable {F : Type}

/-! ## C7: the literal sets and their failure kinds -/

/-- C7 counterexample: an invalid altitude `mode` value fails with the
invalid-*attribute*-data kind, not the claimed invalid-data kind. -/
theorem c7_counterexample :
    locationParse trivOps (Location.new trivOps)
        (.mk "coverage" []
          [.mk "geographic_location" []
            [.mk "longitude" [] [] (some "0"),
              .mk "latitude" [] [] (some "0"),
              .mk "altitude" [("mode", "bogus")] [] (some "0")] none] none) =
      .err (.InvalidAttrData "altitude" "mode" "bogus") ∧
    ∀ el d : String, ColladaError.InvalidAttrData "altitude" "mode" "bogus" ≠
      .InvalidData el d := by
  constructor
  · simp [locationParse, locationGeoChildren, getAttr, trivOps]
  · intro el d h
    cases h

/-- C7 amended: every valid `up_axis` literal parses to the variant whose
encoding is that exact literal, and every other string in that position
fails with invalid-data carrying the string; every valid altitude `mode`
literal parses to the variant whose encoding is that exact literal, and
every other value fails with invalid-*attribute*-data carrying the
string. -/
theorem c7_amended (F : Type) (ops : FOps F) :
    (∀ (a : Asset F) (s : String), s ∈ (["X_UP", "Y_UP", "Z_UP"] : List String) →
      ∃ ax, assetChild ops a (.mk "up_axis" [] [] (some s)) = .ok (a.setUpAxis ax) ∧
        upAxisFmt ax = s) ∧
    (∀ (a : Asset F) (s : String), s ∉ (["X_UP", "Y_UP", "Z_UP"] : List String) →
      assetChild ops a (.mk "up_axis" [] [] (some s)) =
        .err (.InvalidData "up_axis" s)) ∧
    (∀ (l : Location F) (t : String) (v : F) (m : String), ops.parseF t = some v →
      m ∈ (["absolute", "relativeToGround"] : List String) →
      ∃ md, locationGeoChildren ops l [.mk "altitude" [("mode", m)] [] (some t)] =
          .ok ⟨l.longitude, l.latitude, v, md⟩ ∧ altitudeModeFmt md = m) ∧
    (∀ (l : Location F) (t : String) (v : F) (m : String), ops.parseF t = some v →
      m ∉ (["absolute", "relativeToGround"] : List String) →
      locationGeoChildren ops l [.mk "altitude" [("mode", m)] [] (some t)] =
        .err (.InvalidAttrData "altitude" "mode" m)) := by
  refine ⟨?_, ?_, ?_, ?_⟩
  · intro a s hs
    simp only [List.mem_cons, List.mem_singleton, List.not_mem_nil, or_false] at hs
    rcases hs with rfl | rfl | rfl
    · exact ⟨.XUP, by simp [assetChild], rfl⟩
    · exact ⟨.YUP, by simp [assetChild], rfl⟩
    · exact ⟨.ZUP, by simp [assetChild], rfl⟩
  · intro a s hs
    simp only [List.mem_cons, List.mem_singleton, List.not_mem_nil, or_false,
      not_or] at hs
    obtain ⟨u1, u2, u3⟩ := hs
    simp [assetChild, u1, u2, u3]
  · intro l t v m hv hm
    rcases l with ⟨lon, lat, alt, mode⟩
    simp only [List.mem_cons, List.mem_singleton, List.not_mem_nil, or_false] at hm
    rcases hm with rfl | rfl
    · exact ⟨.Absolute, by simp [locationGeoChildren, getAttr, hv], rfl⟩
    · exact ⟨.RelativeToGround, by simp [locationGeoChildren, getAttr, hv], rfl⟩
  · intro l t v m hv hm
    simp only [List.mem_cons, List.mem_singleton, List.not_mem_nil, or_false,
      not_or] at hm
    obtain ⟨m1, m2⟩ := hm
    simp [locationGeoChildren, getAttr, hv, m1, m2]

/-- Witness for C7's amended theorem at concrete inputs. -/
theorem c7_amended_witness :
    assetChild trivOps Asset.new (.mk "up_axis" [] [] (some "NOT_AN_AXIS")) =
      .err (.InvalidData "up_axis" "NOT_AN_AXIS") ∧
    ∃ md, locationGeoChildren trivOps (Location.new trivOps)
        [.mk "altitude" [("mode", "absolute")] [] (some "0")] =
      .ok ⟨(), (), (), md⟩ ∧ altitudeModeFmt md = "absolute" :=
  ⟨(c7_amended Unit trivOps).2.1 Asset.new "NOT_AN_AXIS" (by simp),
    (c7_amended Unit trivOps).2.2.1 (Location.new trivOps) "0" () "absolute"
      (by simp [trivOps]) (by simp)⟩

end Collada
namespace Collada

variable {F : Type}

/-! ## C8: verbatim payload fidelity of Technique -/

/-- C8: whenever `Technique::parse` succeeds — whatever the node's
attributes and arbitrary nested children — the subsequent `encode`
returns a tree exactly equal to the original input node. -/
theorem c8_technique_fidelity :
    ∀ (t0 t : Technique) (e : Element), techniqueParse t0 e = .ok t →
      techniqueEncode t = e := by
  intro t0 t e h
  rw [techniqueParse] at h
  split_ifs at h
  split at h
  · cases h
    rfl
  · cases h

/-- Witness for C8 at a concrete vendor-payload node. -/
theorem c8_technique_fidelity_witness :
    techniqueEncode
        ⟨"Max", none,
          .mk "technique" [("profile", "Max")]
            [.mk "uhoh" [] [] (some "unvalidated payload")] (some "txt")⟩ =
      .mk "technique" [("profile", "Max")]
        [.mk "uhoh" [] [] (some "unvalidated payload")] (some "txt") :=
  c8_technique_fidelity Technique.new _ _
    (by simp [techniqueParse, getAttr, Technique.new])

/-! ## C9: the default constructors -/

/-- C9 counterexample: `Unit::new()` does not produce an empty record —
its optional `name` field is `Some "meter"`, not `None` (and `meter` is
`Some 1.0`). -/
theorem c9_counterexample :
    (UnitR.new trivOps).name = some "meter" ∧
      (UnitR.new trivOps).meter = some () ∧
      (UnitR.new trivOps).name ≠ none := by
  refine ⟨rfl, rfl, by simp [UnitR.new]⟩

/-- C9 amended: every constructor except `Unit::new` produces the
default/empty record (options unset, lists empty, required strings
empty); `Unit::new` defaults to `name = Some "meter"`, `meter = Some 1.0`,
and `Location::new` zero-fills its required numeric fields with the
`RelativeToGround` default mode. -/
theorem c9_amended (F : Type) (ops : FOps F) :
    Contributor.new = ⟨none, none, none, none, none, none, none⟩ ∧
    (Technique.new.profile = "" ∧ Technique.new.xmlns = none ∧
      Technique.new.data = .mk "technique" [] [] none) ∧
    (Extra.new : Extra F) = .mk none none none none [] ∧
    (Asset.new : Asset F) = .mk [] none "" [] "" none none none none none [] ∧
    UnitR.new ops = ⟨some "meter", some ops.one⟩ ∧
    Location.new ops = ⟨ops.zero, ops.zero, ops.zero, .RelativeToGround⟩ :=
  ⟨rfl, ⟨rfl, rfl, rfl⟩, rfl, rfl, rfl, rfl⟩

/-! ## C10: only Asset::parse ignores the container tag -/

/-- C10: `Asset::parse` never inspects the tag of the node it is handed —
two nodes differing only in their own tag parse identically — while
`Contributor::parse`, `Location::parse` and `Technique::parse` each fail
with a missing-element error when the container tag is wrong. -/
theorem c10_asset_ignores_tag (F : Type) (ops : FOps F) :
    (∀ (a : Asset F) (n1 n2 : String) (attrs : List (String × String))
        (cs : List Element) (t : Option String),
      assetParse ops a (.mk n1 attrs cs t) = assetParse ops a (.mk n2 attrs cs t)) ∧
    (∀ (b : Contributor) (e : Element), e.name ≠ "contributor" →
      contributorParse b e = .err (.MissingElement "contributor" "contributor")) ∧
    (∀ (l : Location F) (e : Element), e.name ≠ "coverage" →
      locationParse ops l e = .err (.MissingElement "location" "coverage")) ∧
    (∀ (t : Technique) (e : Element), e.name ≠ "technique" →
      techniqueParse t e = .err (.MissingElement "technique" "technique")) := by
  refine ⟨?_, ?_, ?_, ?_⟩
  · intro a n1 n2 attrs cs t
    rw [assetParse, assetParse]
    simp only [Element.children_mk]
  · intro b e h
    rw [contributorParse, if_pos h]
  · intro l e h
    rw [locationParse, if_pos h]
  · intro t e h
    rw [techniqueParse, if_pos h]

/-- Witness for C10 at concrete inputs: renaming an asset node does not
change the parse, and a wrongly-tagged technique node is rejected. -/
theorem c10_asset_ignores_tag_witness :
    assetParse trivOps Asset.new
        (.mk "asset" [] [.mk "created" [] [] (some "t")] none) =
      assetParse trivOps Asset.new
        (.mk "somethingelse" [] [.mk "created" [] [] (some "t")] none) ∧
    techniqueParse Technique.new (.mk "wrongtag" [] [] none) =
      .err (.MissingElement "technique" "technique") :=
  ⟨(c10_asset_ignores_tag Unit trivOps).1 Asset.new "asset" "somethingelse" []
      [.mk "created" [] [] (some "t")] none,
    (c10_asset_ignores_tag Unit trivOps).2.2.2 Technique.new
      (.mk "wrongtag" [] [] none) (by decide)⟩

end Collada
